import Mathlib

/-!
Verification of the binary mesh codec in `pdx_data.py` (io_pdx_mesh).

The development shallowly embeds the reader (`read_meshfile` and its helpers
`parseObject`, `parseProperty`, `parseString`, `parseData`) and the writer
(`write_meshfile` and its helpers `writeObject`, `writeProperty`,
`writeString`, `writeData`) of `pdx_data.py`.

Modelling conventions:
* a byte buffer is a `List Nat` of values `< 256`;
* Python strings handled by the codec are Latin-1 byte sequences, modelled as
  `List Nat` (one entry per character, each `< 256`);
* 32-bit floats are transported by the codec bit-for-bit (`struct.unpack("f")`
  widens to a double, `struct.pack("f")` narrows it back), so float values are
  modelled by their 32-bit pattern (a `Nat`);
* Python exceptions become an error type `PyErr`; `NotImplementedError` (which
  the spec calls `FormatError` on the read side and `SchemaError` on the write
  side) is `PyErr.notImplementedError`, and out-of-bounds `struct` unpacking,
  UTF-8 decoding failures, Latin-1 encoding failures and `""[-1]` indexing
  become `structError`, `unicodeError`, `unicodeEncodeError` and `indexError`;
* file I/O is stripped: `read_meshfile` takes the byte list that Python mmaps
  in, `write_meshfile` returns the byte list that Python writes out at the end
  (the Python code buffers the whole `datastring` before opening the output
  file, so an error means no bytes reach the file);
* the reader's `while pos < eof` loop can be made to diverge by adversarial
  buffers (a negative data count moves `pos` backwards), so the loop carries
  fuel `len + 1`; `PyErr.fuelOut` marks the (never reached in any theorem
  below) divergent executions.
-/

set_option maxRecDepth 8192

namespace PdxData

/-- Python exception kinds that `pdx_data.py` can raise. -/
inductive PyErr where
  | notImplementedError
  | structError
  | unicodeError
  | unicodeEncodeError
  | typeError
  | indexError
  | fuelOut
deriving DecidableEq, Repr

/-- A Python value stored in an attribute array: `int`, `float` (by its 32-bit
pattern), or a Latin-1 string. -/
inductive PyVal where
  | int (n : Int)
  | float (bits : Nat)
  | str (s : List Nat)
deriving DecidableEq, Repr

/-- An XML element as built by `xml.etree`: tag, ordered attribute dict, and
ordered children.  Attribute values are the Python lists the codec stores. -/
inductive Element where
  | mk (tag : List Nat) (attrib : List (List Nat × List PyVal)) (children : List Element)
deriving Repr

def Element.tag : Element → List Nat
  | .mk t _ _ => t

def Element.attrib : Element → List (List Nat × List PyVal)
  | .mk _ a _ => a

def Element.children : Element → List Element
  | .mk _ _ c => c

instance : Inhabited Element := ⟨.mk [] [] []⟩

/-- First-match association-list lookup (`dict.get` on an element's `attrib`;
keys are unique in any dict the Python code builds). -/
def lookupA : List (List Nat × List PyVal) → List Nat → Option (List PyVal)
  | [], _ => none
  | (k', v) :: rest, k => if k' = k then some v else lookupA rest k

/-- `element.get(name)` from `xml.etree`. -/
def Element.get (e : Element) (k : List Nat) : Option (List PyVal) :=
  lookupA e.attrib k

/-- `element.find(tag)`: first direct child with the given tag. -/
def findFirst : List Element → List Nat → Option Element
  | [], _ => none
  | c :: rest, t => if Element.tag c = t then some c else findFirst rest t

def Element.find (e : Element) (t : List Nat) : Option Element :=
  findFirst e.children t

/-- `element.set(key, value)`: overwrite an existing key in place, else append
(Python dicts keep insertion order). -/
def setPairs : List (List Nat × List PyVal) → List Nat → List PyVal →
    List (List Nat × List PyVal)
  | [], k, v => [(k, v)]
  | (k', v') :: rest, k, v =>
    if k' = k then (k, v) :: rest else (k', v') :: setPairs rest k v

/- == fixed Latin-1 names appearing literally in pdx_data.py ================ -/

def magicBytes : List Nat := [64, 64, 98, 64]                         -- "@@b@"
def strFile : List Nat := [70, 105, 108, 101]                          -- "File"
def strPdxasset : List Nat := [112, 100, 120, 97, 115, 115, 101, 116]  -- "pdxasset"
def strObject : List Nat := [111, 98, 106, 101, 99, 116]               -- "object"
def strLocator : List Nat := [108, 111, 99, 97, 116, 111, 114]         -- "locator"
def strMesh : List Nat := [109, 101, 115, 104]                         -- "mesh"
def strSkeleton : List Nat := [115, 107, 101, 108, 101, 116, 111, 110] -- "skeleton"
def strAabb : List Nat := [97, 97, 98, 98]                             -- "aabb"
def strMaterial : List Nat := [109, 97, 116, 101, 114, 105, 97, 108]   -- "material"
def strSkin : List Nat := [115, 107, 105, 110]                         -- "skin"
def strLod : List Nat := [108, 111, 100]                               -- "lod"
def strP : List Nat := [112]                                           -- "p"
def strN : List Nat := [110]                                           -- "n"
def strTa : List Nat := [116, 97]                                      -- "ta"
def strU0 : List Nat := [117, 48]                                      -- "u0"
def strU1 : List Nat := [117, 49]                                      -- "u1"
def strU2 : List Nat := [117, 50]                                      -- "u2"
def strU3 : List Nat := [117, 51]                                      -- "u3"
def strTri : List Nat := [116, 114, 105]                               -- "tri"
def strBoundingsphere : List Nat :=
  [98, 111, 117, 110, 100, 105, 110, 103, 115, 112, 104, 101, 114, 101]
def strMin : List Nat := [109, 105, 110]                               -- "min"
def strMax : List Nat := [109, 97, 120]                                -- "max"
def strShader : List Nat := [115, 104, 97, 100, 101, 114]              -- "shader"
def strDiff : List Nat := [100, 105, 102, 102]                         -- "diff"
def strSpecular : List Nat := [115, 112, 101, 99]                      -- "spec"
def strBones : List Nat := [98, 111, 110, 101, 115]                    -- "bones"
def strIx : List Nat := [105, 120]                                     -- "ix"
def strW : List Nat := [119]                                           -- "w"
def strPa : List Nat := [112, 97]                                      -- "pa"
def strTx : List Nat := [116, 120]                                     -- "tx"
def strQ : List Nat := [113]                                           -- "q"

/-- The fixed attribute order the writer uses for a `mesh` node
(pdx_data.py line 434). -/
def meshPropOrder : List (List Nat) :=
  [strP, strN, strTa, strU0, strU1, strU2, strU3, strTri, strBoundingsphere]

def aabbPropOrder : List (List Nat) := [strMin, strMax]
def materialPropOrder : List (List Nat) := [strShader, strDiff, strN, strSpecular]
def skinPropOrder : List (List Nat) := [strBones, strIx, strW]
def bonePropOrder : List (List Nat) := [strIx, strPa, strTx]
def locnodePropOrder : List (List Nat) := [strP, strQ, strPa, strTx]
def shapePropOrder : List (List Nat) := [strLod]

/- == struct.pack / struct.unpack helpers ================================== -/

/-- Little-endian 4-byte encoding of the low 32 bits of a natural number
(`struct.pack("i")` / `struct.pack("f")` payload bytes). -/
def le4 (u : Nat) : List Nat :=
  [u % 256, u / 256 % 256, u / 65536 % 256, u / 16777216 % 256]

/-- Unsigned value of 4 little-endian bytes. -/
def u32ofLE (l : List Nat) : Nat :=
  match l with
  | [b0, b1, b2, b3] => b0 + 256 * b1 + 65536 * b2 + 16777216 * b3
  | _ => 0

/-- Signed 32-bit value of 4 little-endian bytes (`struct.unpack("i")`). -/
def i32ofLE (l : List Nat) : Int :=
  let u := u32ofLE l
  if u < 2147483648 then (u : Int) else (u : Int) - 4294967296

/-- The unsigned 32-bit pattern of a signed int in `[-2^31, 2^31)`
(what `struct.pack("i")` emits). -/
def u32ofI (n : Int) : Nat := (n % 4294967296).toNat

/-- `struct.unpack_from` offset adjustment: a negative offset counts from the
end of the buffer. -/
def adjOff (bdata : List Nat) (pos : Int) : Int :=
  if pos < 0 then pos + bdata.length else pos

/-- Read `n` bytes at offset `pos` (`struct.unpack_from` bounds behaviour:
error when the adjusted offset is negative or fewer than `n` bytes remain). -/
def unpackBytes (bdata : List Nat) (pos : Int) (n : Nat) : Except PyErr (List Nat) :=
  let a := adjOff bdata pos
  if 0 ≤ a ∧ a + n ≤ bdata.length then
    .ok ((bdata.drop a.toNat).take n)
  else
    .error .structError

/-- Read one byte (`unpack_from("c")` / `unpack_from("b")`, which agree on the
raw byte; signedness is applied at each use site). -/
def unpackByte (bdata : List Nat) (pos : Int) : Except PyErr Nat := do
  let l ← unpackBytes bdata pos 1
  .ok (l.headI)

/-- `bytes.decode()` on a single byte: UTF-8 rejects any byte `≥ 0x80`. -/
def decodeOneUtf8 (b : Nat) : Except PyErr Nat :=
  if b < 128 then .ok b else .error .unicodeError

/-- `unpack_from("i")`: 4-byte little-endian signed int. -/
def readI32 (bdata : List Nat) (pos : Int) : Except PyErr Int := do
  let l ← unpackBytes bdata pos 4
  .ok (i32ofLE l)

/- == reading (pdx_data.py lines 110-266) ================================== -/

/-- The `while ... == "["` loop of `parseObject` (lines 113-115): count the run
of `[` bytes.  Each byte is passed through `.decode()` first, so a byte
`≥ 0x80` raises before it is compared. -/
def countBrackets (bdata : List Nat) : Nat → Int → Except PyErr (Nat × Int)
  | 0, _ => .error .fuelOut
  | fuel + 1, pos => do
    let b ← unpackByte bdata pos
    let c ← decodeOneUtf8 b
    if c = 91 then do
      let (k, pos') ← countBrackets bdata fuel (pos + 1)
      .ok (k + 1, pos')
    else
      .ok (0, pos)

/-- The name-scanning loop of `parseObject` (lines 118-125): accumulate bytes
until a zero byte, then skip the zero byte.  Bytes are decoded as Latin-1,
which never fails. -/
def scanName (bdata : List Nat) : Nat → Int → Except PyErr (List Nat × Int)
  | 0, _ => .error .fuelOut
  | fuel + 1, pos => do
    let b ← unpackByte bdata pos
    if b ≠ 0 then do
      let (nm, pos') ← scanName bdata fuel (pos + 1)
      .ok (b :: nm, pos')
    else
      .ok ([], pos + 1)

/-- `parseObject` (lines 110-127): bracket run gives the depth, then a
nul-terminated Latin-1 name. -/
def parseObject (bdata : List Nat) (pos : Int) : Except PyErr (List Nat × Nat × Int) := do
  let (objdepth, pos1) ← countBrackets bdata (2 * bdata.length + 2) pos
  let (objName, pos2) ← scanName bdata (2 * bdata.length + 2) pos1
  .ok (objName, objdepth, pos2)

/-- `parseString` (lines 148-158): read `length` bytes, decode Latin-1, strip
one trailing zero byte if present.  For `length ≤ 0` the format string
collapses to `""`, the unpack yields `""`, and `string[-1]` raises
`IndexError` (after the unpack's own bounds check on the offset). -/
def parseString (bdata : List Nat) (pos : Int) (length : Int) : Except PyErr (List Nat) :=
  if length ≤ 0 then do
    let _ ← unpackBytes bdata pos 0
    .error .indexError
  else do
    let l ← unpackBytes bdata pos length.toNat
    .ok (if l.getLast? = some 0 then l.dropLast else l)

/-- Split a byte list into consecutive groups of 4 (the `unpack_from`
result for format `"i" * n` / `"f" * n`). -/
def chunk4 : List Nat → List (List Nat)
  | b0 :: b1 :: b2 :: b3 :: rest => [b0, b1, b2, b3] :: chunk4 rest
  | _ => []

/-- `parseData` (lines 161-200): one type byte (`.decode()`-ed, so non-ASCII
raises `UnicodeDecodeError`), a 4-byte signed count, then the payload.
A type byte that is ASCII but not `i`/`f`/`s` raises `NotImplementedError`.
A negative count makes the `"i" * count` format collapse to `""` and moves
`pos` backwards by `4 * count`. -/
def parseData (bdata : List Nat) (pos : Int) : Except PyErr (List PyVal × Int) := do
  let tb ← unpackByte bdata pos
  let t ← decodeOneUtf8 tb
  let pos1 := pos + 1
  let datacount ← readI32 bdata pos1
  let pos2 := pos1 + 4
  if t = 105 then                        -- "i"
    if datacount ≤ 0 then do
      let _ ← unpackBytes bdata pos2 0
      .ok ([], pos2 + 4 * datacount)
    else do
      let bs ← unpackBytes bdata pos2 (4 * datacount.toNat)
      .ok ((chunk4 bs).map (fun g => PyVal.int (i32ofLE g)), pos2 + 4 * datacount)
  else if t = 102 then                   -- "f"
    if datacount ≤ 0 then do
      let _ ← unpackBytes bdata pos2 0
      .ok ([], pos2 + 4 * datacount)
    else do
      let bs ← unpackBytes bdata pos2 (4 * datacount.toNat)
      .ok ((chunk4 bs).map (fun g => PyVal.float (u32ofLE g)), pos2 + 4 * datacount)
  else if t = 115 then do                -- "s"
    let strLen ← readI32 bdata pos2
    let pos3 := pos2 + 4
    let s ← parseString bdata pos3 strLen
    .ok ([PyVal.str s], pos3 + strLen)
  else
    .error .notImplementedError

/-- `parseProperty` (lines 130-145): skip the `!`, read a signed name-length
byte, read the name with `parseString`, then the data record. -/
def parseProperty (bdata : List Nat) (pos : Int) :
    Except PyErr (List Nat × List PyVal × Int) := do
  let pos1 := pos + 1
  let lb ← unpackByte bdata pos1
  let nameLen : Int := if lb < 128 then (lb : Int) else (lb : Int) - 256
  let pos2 := pos1 + 1
  let nm ← parseString bdata pos2 nameLen
  let pos3 := pos2 + nameLen
  let (vals, pos4) ← parseData bdata pos3
  .ok (nm, vals, pos4)

/-- One step of `depth_list = depth_list[:depth]` realised functionally: pop
the top of the parse stack and record it as the last child of the element
below it (in Python the child was attached by `SubElement` at creation; an
element dropped from `depth_list` is never mutated again, so attaching on pop
builds the same tree). -/
def truncToAux : Nat → List Element → Nat → List Element
  | 0, st, _ => st
  | fuel + 1, st, d =>
    if st.length ≤ d then st
    else
      match st with
      | c :: p :: rest => truncToAux fuel (Element.mk p.tag p.attrib (p.children ++ [c]) :: rest) d
      | _ => st

/-- Truncate the parse stack (top first) to its bottom `d` entries, attaching
each popped element to its parent. -/
def truncTo (st : List Element) (d : Nat) : List Element :=
  truncToAux st.length st d

/-- `parent_element.set(prop_name, prop_values)` (line 260): the property is
assigned on the top of the stack. -/
def setTop (st : List Element) (k : List Nat) (v : List PyVal) : List Element :=
  match st with
  | [] => []
  | e :: rest => Element.mk e.tag (setPairs e.attrib k v) e.children :: rest

/-- Final state of the parse: attach everything still on the stack and return
the root (`file_element` in the Python code). -/
def collapseStack (st : List Element) : Element :=
  match truncTo st 1 with
  | e :: _ => e
  | [] => Element.mk [] [] []

/-- The `while pos < eof` loop of `read_meshfile` (lines 232-264), with the
state (`parent_element`, `depth_list`, `current_depth`) carried as
(`stack top`, `stack`, `current_depth`); the stack is kept top-first. -/
def readLoop (bdata : List Nat) : Nat → Int → List Element → Nat → Except PyErr Element
  | 0, _, _, _ => .error .fuelOut
  | fuel + 1, pos, stack, currentDepth =>
    if pos < (bdata.length : Int) then do
      let b ← unpackByte bdata pos
      let c ← decodeOneUtf8 b
      if c = 91 then do
        let (objName, depth, pos') ← parseObject bdata pos
        let stack1 := if ¬ depth > currentDepth then truncTo stack depth else stack
        readLoop bdata fuel pos' (Element.mk objName [] [] :: stack1) depth
      else if c = 33 then do
        let (propName, propValues, pos') ← parseProperty bdata pos
        readLoop bdata fuel pos' (setTop stack propName propValues) currentDepth
      else
        .error .notImplementedError
    else
      .ok (collapseStack stack)

/-- `read_meshfile` (lines 203-266) on the in-memory byte buffer: check the
`@@b@` header, then run the token loop starting from the `File` root. -/
def read_meshfile (fdata : List Nat) : Except PyErr Element := do
  let header ← unpackBytes fdata 0 4
  if header = magicBytes then
    readLoop fdata (fdata.length + 1) 4 [Element.mk strFile [] []] 0
  else
    .error .notImplementedError

/- == the PDXData wrapper class (lines 34-64) ============================== -/

/-- The part of the `PDXData` object tree that carries the hierarchy depth. -/
inductive PDXDataT where
  | mk (name : List Nat) (depth : Nat) (children : List PDXDataT)

def PDXDataT.depth : PDXDataT → Nat
  | .mk _ d _ => d

def PDXDataT.children : PDXDataT → List PDXDataT
  | .mk _ _ c => c

mutual

/-- `PDXData.__init__` (lines 38-64): `self.depth = depth or 0`, children are
built with `depth = self.depth + 1`. -/
def buildPDX : Element → Option Nat → PDXDataT
  | .mk t _ ch, depth =>
    let d := depth.getD 0
    .mk t d (buildPDXList ch (d + 1))

def buildPDXList : List Element → Nat → List PDXDataT
  | [], _ => []
  | c :: rest, d => buildPDX c (some d) :: buildPDXList rest d

end

mutual

/-- Every child in a `PDXData` tree sits one depth level below its parent. -/
def depthInv : PDXDataT → Bool
  | .mk _ d cs => depthInvList d cs

def depthInvList : Nat → List PDXDataT → Bool
  | _, [] => true
  | d, c :: rest => (PDXDataT.depth c == d + 1) && depthInv c && depthInvList d rest

end

/- == writing (pdx_data.py lines 275-490) ================================== -/

/-- `writeString` (lines 319-331): Latin-1 encode (fails on a code point
`≥ 256`), then `pack("{n}s")`, which emits the bytes unchanged. -/
def writeString (s : List Nat) : Except PyErr (List Nat) :=
  if s.all (fun c => c < 256) then .ok s else .error .unicodeEncodeError

/-- `writeObject` (lines 275-291): `depth` marker bytes, the tag (must be
shorter than 64 characters), and a zero terminator. -/
def writeObject (objXml : Element) (objDepth : Nat) : Except PyErr (List Nat) := do
  let objName := objXml.tag
  if objName.length < 64 then do
    let nm ← writeString objName
    .ok (List.replicate objDepth 91 ++ nm ++ [0])
  else
    .error .notImplementedError

/-- Python type of an array entry, for the `set(type(d) for d in data_array)`
homogeneity check of `writeData`. -/
def pyTypeTag : PyVal → Nat
  | .int _ => 0
  | .float _ => 1
  | .str _ => 2

def isIntV : PyVal → Bool
  | .int _ => true
  | _ => false

def isFloatV : PyVal → Bool
  | .float _ => true
  | _ => false

def isStrV : PyVal → Bool
  | .str _ => true
  | _ => false

/-- `pack("i", n)` accepts exactly the signed 32-bit range. -/
def inI32 (n : Int) : Bool := decide (-2147483648 ≤ n) && decide (n < 2147483648)

/-- `writeData` (lines 334-390).  `types = set(...)`: exactly one type
proceeds, the empty set returns `b""`, more than one type raises.  Integer
payloads go through `pack("i")` (range-checked), float payloads are emitted
bit-for-bit, and a string array writes only its first entry with count 1 and a
`length + 1` byte count followed by the bytes and a zero terminator. -/
def writeData (dataArray : List PyVal) : Except PyErr (List Nat) :=
  let types := (dataArray.map pyTypeTag).dedup
  if types.length = 1 then
    if dataArray.all isIntV then
      if decide (dataArray.length < 2147483648) &&
          dataArray.all (fun v => match v with | .int n => inI32 n | _ => true) then
        .ok (105 :: le4 dataArray.length ++
          (dataArray.map (fun v => match v with | .int n => le4 (u32ofI n) | _ => [])).flatten)
      else
        .error .structError
    else if dataArray.all isFloatV then
      if decide (dataArray.length < 2147483648) then
        .ok (102 :: le4 dataArray.length ++
          (dataArray.map (fun v => match v with | .float b => le4 b | _ => [])).flatten)
      else
        .error .structError
    else if dataArray.all isStrV then
      match dataArray with
      | PyVal.str s :: _ =>
        if decide (s.length + 1 < 2147483648) then do
          let sb ← writeString s
          .ok (115 :: le4 1 ++ le4 (s.length + 1) ++ sb ++ [0])
        else
          .error .structError
      | _ => .error .notImplementedError
    else
      .error .notImplementedError
  else if types.length < 1 then
    .ok []
  else
    .error .notImplementedError

/-- `writeProperty` (lines 294-316): `!`, a signed name-length byte
(`pack("b")` accepts at most 127), the name, then the data record. -/
def writeProperty (propName : List Nat) (propData : List PyVal) :
    Except PyErr (List Nat) := do
  if propName.length ≤ 127 then do
    let nm ← writeString propName
    let d ← writeData propData
    .ok (33 :: propName.length :: nm ++ d)
  else
    .error .structError

/-- The repeated `for prop in [...]: if node.get(prop) is not None: ...`
pattern of `write_meshfile` (for a mesh: lines 434-436). -/
def writeProps (order : List (List Nat)) (e : Element) : Except PyErr (List Nat) :=
  match order with
  | [] => .ok []
  | p :: rest => do
    let chunk ← match Element.get e p with
      | some v => writeProperty p v
      | none => .ok []
    let restB ← writeProps rest e
    .ok (chunk ++ restB)

/-- Lines 439-445: the optional `aabb` sub-object of a mesh. -/
def writeAabbChunk (meshXml : Element) : Except PyErr (List Nat) :=
  match Element.find meshXml strAabb with
  | some aabbXml => do
    let o ← writeObject aabbXml 4
    let ps ← writeProps aabbPropOrder aabbXml
    .ok (o ++ ps)
  | none => .ok []

/-- Lines 447-453: the optional `material` sub-object of a mesh. -/
def writeMaterialChunk (meshXml : Element) : Except PyErr (List Nat) :=
  match Element.find meshXml strMaterial with
  | some materialXml => do
    let o ← writeObject materialXml 4
    let ps ← writeProps materialPropOrder materialXml
    .ok (o ++ ps)
  | none => .ok []

/-- Lines 455-461: the optional `skin` sub-object of a mesh. -/
def writeSkinChunk (meshXml : Element) : Except PyErr (List Nat) :=
  match Element.find meshXml strSkin with
  | some skinXml => do
    let o ← writeObject skinXml 4
    let ps ← writeProps skinPropOrder skinXml
    .ok (o ++ ps)
  | none => .ok []

/-- Lines 464-470: the bone children of a `skeleton` node. -/
def writeBones : List Element → Except PyErr (List Nat)
  | [] => .ok []
  | boneXml :: rest => do
    let o ← writeObject boneXml 4
    let ps ← writeProps bonePropOrder boneXml
    let r ← writeBones rest
    .ok (o ++ ps ++ r)

/-- Lines 427-470: one child of a shape.  Every child gets an object token at
depth 3; only `mesh` and `skeleton` children get any content after it. -/
def writeShapeChild (childXml : Element) : Except PyErr (List Nat) := do
  let o ← writeObject childXml 3
  if childXml.tag = strMesh then do
    let ps ← writeProps meshPropOrder childXml
    let ab ← writeAabbChunk childXml
    let mt ← writeMaterialChunk childXml
    let sk ← writeSkinChunk childXml
    .ok (o ++ ps ++ ab ++ mt ++ sk)
  else if childXml.tag = strSkeleton then do
    let bs ← writeBones childXml.children
    .ok (o ++ bs)
  else
    .ok o

def writeShapeChildren : List Element → Except PyErr (List Nat)
  | [] => .ok []
  | c :: rest => do
    let cb ← writeShapeChild c
    let r ← writeShapeChildren rest
    .ok (cb ++ r)

/-- Lines 417-470: one shape node under the `object` root. -/
def writeShape (shapeXml : Element) : Except PyErr (List Nat) := do
  let o ← writeObject shapeXml 2
  let ps ← writeProps shapePropOrder shapeXml
  let cs ← writeShapeChildren shapeXml.children
  .ok (o ++ ps ++ cs)

def writeShapes : List Element → Except PyErr (List Nat)
  | [] => .ok []
  | s :: rest => do
    let sb ← writeShape s
    let r ← writeShapes rest
    .ok (sb ++ r)

/-- Lines 479-486: one locator node under the `locator` root. -/
def writeLocnode (locnodeXml : Element) : Except PyErr (List Nat) := do
  let o ← writeObject locnodeXml 2
  let ps ← writeProps locnodePropOrder locnodeXml
  .ok (o ++ ps)

def writeLocnodes : List Element → Except PyErr (List Nat)
  | [] => .ok []
  | n :: rest => do
    let nb ← writeLocnode n
    let r ← writeLocnodes rest
    .ok (nb ++ r)

/-- `write_meshfile` (lines 393-490), returning the buffered `datastring`
instead of writing it to a file.  `root_xml.get("pdxasset")` being `None`
makes `len(None)` in `writeProperty` raise `TypeError`. -/
def write_meshfile (rootXml : Element) : Except PyErr (List Nat) :=
  if rootXml.tag = strFile then do
    let pdx ← match Element.get rootXml strPdxasset with
      | some v => writeProperty strPdxasset v
      | none => .error .typeError
    let objB ← match Element.find rootXml strObject with
      | some objectXml => do
        let ob ← writeObject objectXml 1
        let ss ← writeShapes objectXml.children
        .ok (ob ++ ss)
      | none => .ok ([] : List Nat)
    let locB ← match Element.find rootXml strLocator with
      | some locatorXml => do
        let lb ← writeObject locatorXml 1
        let ls ← writeLocnodes locatorXml.children
        .ok (lb ++ ls)
      | none => .ok ([] : List Nat)
    .ok (magicBytes ++ pdx ++ objB ++ locB)
  else
    .error .notImplementedError

/- == token-level view of the byte stream ================================== -/

/-- A token of the binary format: an object token (depth markers + name) or a
property token (name + data record). -/
inductive Tok where
  | obj (nm : List Nat) (d : Nat)
  | prop (nm : List Nat) (vs : List PyVal)
deriving DecidableEq, Repr

def isPropTok : Tok → Bool
  | .prop _ _ => true
  | _ => false

/-- The byte serialization `writeData` produces for a homogeneous non-empty
array (see `writeData_valid` below). -/
def serData (l : List PyVal) : List Nat :=
  if l.all isIntV then
    105 :: le4 l.length ++
      (l.map (fun v => match v with | .int n => le4 (u32ofI n) | _ => [])).flatten
  else if l.all isFloatV then
    102 :: le4 l.length ++
      (l.map (fun v => match v with | .float b => le4 b | _ => [])).flatten
  else
    match l with
    | [PyVal.str s] => 115 :: le4 1 ++ le4 (s.length + 1) ++ s ++ [0]
    | _ => []

/-- Byte serialization of one token, as emitted by `writeObject` and
`writeProperty`. -/
def serTok : Tok → List Nat
  | .obj nm d => List.replicate d 91 ++ nm ++ [0]
  | .prop nm vs => 33 :: nm.length :: nm ++ serData vs

def serToksBytes : List Tok → List Nat
  | [] => []
  | t :: ts => serTok t ++ serToksBytes ts

/-- The initial parse state of `read_meshfile`: the `File` root, depth 0. -/
def fileRoot : Element := Element.mk strFile [] []

/-- The state transformation of one iteration of the `read_meshfile` loop, on
the (`current_depth`, stack) state. -/
def runTok : Nat × List Element → Tok → Nat × List Element
  | (cd, st), .obj nm d =>
    (d, Element.mk nm [] [] :: (if ¬ d > cd then truncTo st d else st))
  | (cd, st), .prop nm vs => (cd, setTop st nm vs)

def runToks (ts : List Tok) (s : Nat × List Element) : Nat × List Element :=
  ts.foldl runTok s

/- == validity and schema conformance ====================================== -/

/-- A tag that survives the byte round trip: short enough for `writeObject`,
Latin-1, free of the nul terminator, and (for its first byte) neither a depth
marker nor a non-ASCII byte, so `parseObject` reads it back unchanged. -/
def validTag (t : List Nat) : Bool :=
  decide (t.length < 64) && t.all (fun c => decide (c < 256) && decide (c ≠ 0)) &&
  (match t with
   | [] => true
   | c :: _ => decide (c < 128) && decide (c ≠ 91))

/-- A property name that survives the byte round trip: length 1..127 (the
signed length byte), Latin-1, and not ending in a zero byte (which
`parseString` would strip). -/
def validPropName (nm : List Nat) : Bool :=
  decide (1 ≤ nm.length) && decide (nm.length ≤ 127) &&
  nm.all (fun c => decide (c < 256)) && decide (nm.getLast? ≠ some 0)

/-- A value array that `writeData` serializes reversibly: non-empty and
homogeneous, ints in the signed 32-bit range, floats with genuine 32-bit
patterns, or exactly one Latin-1 string. -/
def validArr (l : List PyVal) : Bool :=
  decide (l ≠ []) && decide (l.length < 2147483648) &&
  (l.all (fun v => match v with | .int n => inI32 n | _ => false) ||
   l.all (fun v => match v with | .float b => decide (b < 4294967296) | _ => false) ||
   (match l with
    | [PyVal.str s] => s.all (fun c => decide (c < 256)) && decide (s.length + 1 < 2147483648)
    | _ => false))

def validTok : Tok → Bool
  | .obj nm d => validTag nm && decide (1 ≤ d)
  | .prop nm vs => validPropName nm && validArr vs

/-- `al`'s keys are an ordered (duplicate-free) selection from `order`. -/
def isOrderedSub : List (List Nat) → List (List Nat × List PyVal) → Bool
  | _, [] => true
  | [], _ :: _ => false
  | k :: ks, (k', v) :: rest =>
    if k' = k then isOrderedSub ks rest else isOrderedSub ks ((k', v) :: rest)

def attrsConform (order : List (List Nat)) (al : List (List Nat × List PyVal)) : Bool :=
  isOrderedSub order al && al.all (fun kv => validArr kv.2)

/-- A leaf node of the schema: attributes are an ordered selection from the
given list, all values valid, and no children. -/
def leafConform (order : List (List Nat)) (e : Element) : Bool :=
  attrsConform order e.attrib && e.children.isEmpty

/-- Writer attribute order for the three sub-objects of a mesh. -/
def meshSubOrderFor (t : List Nat) : List (List Nat) :=
  if t = strAabb then aabbPropOrder
  else if t = strMaterial then materialPropOrder
  else skinPropOrder

/-- The children of a schema-conforming mesh: an ordered sub-selection of
`aabb`, `material`, `skin`, each a conforming leaf. -/
def meshChildrenOk : List Element → Bool
  | [] => true
  | [a] =>
    (decide (a.tag = strAabb) || decide (a.tag = strMaterial) || decide (a.tag = strSkin)) &&
    leafConform (meshSubOrderFor a.tag) a
  | [a, b] =>
    ((decide (a.tag = strAabb) && (decide (b.tag = strMaterial) || decide (b.tag = strSkin))) ||
     (decide (a.tag = strMaterial) && decide (b.tag = strSkin))) &&
    leafConform (meshSubOrderFor a.tag) a && leafConform (meshSubOrderFor b.tag) b
  | [a, b, c] =>
    decide (a.tag = strAabb) && decide (b.tag = strMaterial) && decide (c.tag = strSkin) &&
    leafConform aabbPropOrder a && leafConform materialPropOrder b && leafConform skinPropOrder c
  | _ => false

def meshConform (m : Element) : Bool :=
  attrsConform meshPropOrder m.attrib && meshChildrenOk m.children

def boneConform (b : Element) : Bool :=
  validTag b.tag && leafConform bonePropOrder b

def skeletonConform (k : Element) : Bool :=
  k.attrib.isEmpty && k.children.all boneConform

def shapeChildConform (c : Element) : Bool :=
  (decide (c.tag = strMesh) && meshConform c) ||
  (decide (c.tag = strSkeleton) && skeletonConform c)

def shapeConform (s : Element) : Bool :=
  validTag s.tag && attrsConform shapePropOrder s.attrib && s.children.all shapeChildConform

def objectConform (o : Element) : Bool :=
  o.attrib.isEmpty && o.children.all shapeConform

def locnodeConform (n : Element) : Bool :=
  validTag n.tag && leafConform locnodePropOrder n

def locatorConform (l : Element) : Bool :=
  l.attrib.isEmpty && l.children.all locnodeConform

/-- A tree "built to satisfy the mesh document kind's schema" (spec section
4.2): a `File` root whose only attribute is `pdxasset`, an optional `object`
section of shapes (children: meshes with their `aabb`/`material`/`skin`
sub-objects in registry order, and skeletons of bones), then an optional
`locator` section; all attribute sets are ordered selections from the
registry's per-tag lists with serializable values. -/
def Conforms (root : Element) : Bool :=
  decide (root.tag = strFile) &&
  (match root.attrib with
   | [(k, v)] => decide (k = strPdxasset) && validArr v
   | _ => false) &&
  (match root.children with
   | [] => true
   | [a] =>
     (decide (a.tag = strObject) && objectConform a) ||
     (decide (a.tag = strLocator) && locatorConform a)
   | [a, b] =>
     decide (a.tag = strObject) && objectConform a &&
     decide (b.tag = strLocator) && locatorConform b
   | _ => false)

/- == the token stream the writer emits ==================================== -/

def propToks (order : List (List Nat)) (e : Element) : List Tok :=
  match order with
  | [] => []
  | p :: rest =>
    match Element.get e p with
    | some v => Tok.prop p v :: propToks rest e
    | none => propToks rest e

/-- Tokens for a depth-4 sub-object (`aabb`, `material`, `skin`, or a bone). -/
def subToks (order : List (List Nat)) (e : Element) : List Tok :=
  Tok.obj e.tag 4 :: propToks order e

def aabbToks (m : Element) : List Tok :=
  match Element.find m strAabb with
  | some a => subToks aabbPropOrder a
  | none => []

def materialToks (m : Element) : List Tok :=
  match Element.find m strMaterial with
  | some a => subToks materialPropOrder a
  | none => []

def skinToks (m : Element) : List Tok :=
  match Element.find m strSkin with
  | some a => subToks skinPropOrder a
  | none => []

def bonesToks : List Element → List Tok
  | [] => []
  | b :: rest => subToks bonePropOrder b ++ bonesToks rest

def shapeChildToks (c : Element) : List Tok :=
  Tok.obj c.tag 3 ::
    (if c.tag = strMesh then
      propToks meshPropOrder c ++ aabbToks c ++ materialToks c ++ skinToks c
    else if c.tag = strSkeleton then
      bonesToks c.children
    else [])

def shapeChildrenToks : List Element → List Tok
  | [] => []
  | c :: rest => shapeChildToks c ++ shapeChildrenToks rest

def shapeToks (s : Element) : List Tok :=
  Tok.obj s.tag 2 :: (propToks shapePropOrder s ++ shapeChildrenToks s.children)

def shapesToks : List Element → List Tok
  | [] => []
  | s :: rest => shapeToks s ++ shapesToks rest

def locnodeToks (n : Element) : List Tok :=
  Tok.obj n.tag 2 :: propToks locnodePropOrder n

def locnodesToks : List Element → List Tok
  | [] => []
  | n :: rest => locnodeToks n ++ locnodesToks rest

/-- The token stream `write_meshfile` emits after the magic header. -/
def fileToks (root : Element) : List Tok :=
  (match Element.get root strPdxasset with
   | some v => [Tok.prop strPdxasset v]
   | none => []) ++
  (match Element.find root strObject with
   | some o => Tok.obj o.tag 1 :: shapesToks o.children
   | none => []) ++
  (match Element.find root strLocator with
   | some l => Tok.obj l.tag 1 :: locnodesToks l.children
   | none => [])

/-- The full byte buffer the writer produces for a conforming tree. -/
def writeBytes (root : Element) : List Nat :=
  magicBytes ++ serToksBytes (fileToks root)

/- == concrete schema-conforming trees used as witnesses =================== -/

def wMesh : Element := .mk strMesh
  [(strP, [.float 1065353216, .float 0, .float 3212836864]),
   (strTri, [.int 0, .int 1, .int 2])]
  [.mk strAabb [(strMin, [.float 0]), (strMax, [.float 1065353216])] [],
   .mk strMaterial [(strShader, [.str [80, 100, 120]])] [],
   .mk strSkin [(strBones, [.int 1]), (strIx, [.int 0]), (strW, [.float 1065353216])] []]

def wSkeleton : Element := .mk strSkeleton []
  [.mk [98, 111, 110, 101] [(strIx, [.int 0]), (strTx, [.float 1065353216])] []]

def wShape : Element :=
  .mk [115, 104, 97, 112, 101] [(strLod, [.int 0])] [wMesh, wSkeleton]

def wObject : Element := .mk strObject [] [wShape]

def wLocator : Element := .mk strLocator []
  [.mk [110, 111, 100, 101]
    [(strP, [.float 0, .float 0, .float 0]), (strPa, [.str [114, 111, 111, 116]])] []]

/-- A conforming mesh document exercising every section of the writer. -/
def wTree : Element := .mk strFile [(strPdxasset, [.int 1, .int 0])] [wObject, wLocator]

/-- A second, smaller conforming document (locator section only). -/
def wTree1 : Element := .mk strFile [(strPdxasset, [.int 1])]
  [.mk strLocator []
    [.mk [108, 49] [(strQ, [.float 0, .float 0, .float 0, .float 1065353216])] []]]

/- ========================================================================
   Lemmas.
   ======================================================================== -/

@[simp] lemma Element.tag_mk (t : List Nat) (a : List (List Nat × List PyVal))
    (c : List Element) : (Element.mk t a c).tag = t := rfl

@[simp] lemma Element.attrib_mk (t : List Nat) (a : List (List Nat × List PyVal))
    (c : List Element) : (Element.mk t a c).attrib = a := rfl

@[simp] lemma Element.children_mk (t : List Nat) (a : List (List Nat × List PyVal))
    (c : List Element) : (Element.mk t a c).children = c := rfl

@[simp] lemma Element.eta (e : Element) : Element.mk e.tag e.attrib e.children = e := by
  cases e <;> rfl

/- == byte access at an append boundary ==================================== -/

lemma adjOff_nonneg {b : List Nat} {pos : Int} (h : 0 ≤ pos) : adjOff b pos = pos := by
  simp only [adjOff]
  rw [if_neg (by omega)]

lemma unpackBytes_at {pre mid post : List Nat} {n : Nat} (h : n ≤ mid.length) :
    unpackBytes (pre ++ mid ++ post) (pre.length : Int) n = .ok (mid.take n) := by
  have hlen : (pre ++ mid ++ post).length = pre.length + (mid.length + post.length) := by
    simp
  simp only [unpackBytes]
  rw [adjOff_nonneg (by positivity)]
  rw [if_pos (by rw [hlen]; push_cast; omega)]
  rw [Int.toNat_natCast, List.append_assoc, List.drop_left,
    List.take_append_of_le_length h]

lemma unpackByte_at {pre : List Nat} {b : Nat} {rest : List Nat} :
    unpackByte (pre ++ b :: rest) (pre.length : Int) = .ok b := by
  have h : unpackBytes (pre ++ [b] ++ rest) (pre.length : Int) 1 = .ok ([b].take 1) :=
    unpackBytes_at (by simp)
  simp only [List.append_assoc, List.singleton_append] at h
  simp only [unpackByte, h]
  rfl

lemma unpackBytes_zero_at {pre rest : List Nat} :
    unpackBytes (pre ++ rest) (pre.length : Int) 0 = .ok [] := by
  have h : unpackBytes (pre ++ [] ++ rest) (pre.length : Int) 0 = .ok (([] : List Nat).take 0) :=
    unpackBytes_at (by simp)
  simpa using h

lemma unpackBytes_short {b : List Nat} {n : Nat} (h : b.length < n) :
    unpackBytes b 0 n = .error .structError := by
  simp only [unpackBytes]
  rw [adjOff_nonneg le_rfl]
  rw [if_neg (by push_cast; omega)]

/- == numeric round trips ================================================== -/

lemma u32ofLE_le4 {u : Nat} (h : u < 4294967296) : u32ofLE (le4 u) = u := by
  simp only [u32ofLE, le4]
  omega

lemma le4_length (u : Nat) : (le4 u).length = 4 := rfl

lemma i32ofLE_le4_u32ofI {n : Int} (h1 : -2147483648 ≤ n) (h2 : n < 2147483648) :
    i32ofLE (le4 (u32ofI n)) = n := by
  simp only [i32ofLE, u32ofI]
  rw [u32ofLE_le4 (by omega)]
  omega

lemma readI32_at {pre rest : List Nat} {u : Nat} :
    readI32 (pre ++ (le4 u ++ rest)) (pre.length : Int) = .ok (i32ofLE (le4 u)) := by
  have h : unpackBytes (pre ++ le4 u ++ rest) (pre.length : Int) 4 = .ok ((le4 u).take 4) :=
    unpackBytes_at (by rw [le4_length])
  simp only [List.append_assoc] at h
  simp [readI32, h]
  rfl

lemma i32ofLE_le4_nat {k : Nat} (h : k < 2147483648) : i32ofLE (le4 k) = (k : Int) := by
  simp only [i32ofLE]
  rw [u32ofLE_le4 (by omega)]
  simp
  omega

/- == truncTo equations ==================================================== -/

lemma truncTo_of_le {st : List Element} {d : Nat} (h : st.length ≤ d) : truncTo st d = st := by
  cases st with
  | nil => rfl
  | cons c rest =>
    simp only [truncTo, List.length_cons, truncToAux]
    simp only [List.length_cons] at h
    rw [if_pos (by simpa using h)]

lemma truncToAux_congr_fuel : ∀ (f g : Nat) (st : List Element) (d : Nat),
    st.length ≤ f → st.length ≤ g → truncToAux f st d = truncToAux g st d := by
  intro f
  induction f with
  | zero =>
    intro g st d hf _
    have : st = [] := List.eq_nil_of_length_eq_zero (by omega)
    subst this
    cases g <;> simp [truncToAux]
  | succ f ih =>
    intro g st d hf hg
    cases g with
    | zero =>
      have : st = [] := List.eq_nil_of_length_eq_zero (by omega)
      subst this
      simp [truncToAux]
    | succ g =>
      simp only [truncToAux]
      by_cases hle : st.length ≤ d
      · rw [if_pos hle, if_pos hle]
      · rw [if_neg hle, if_neg hle]
        cases st with
        | nil => rfl
        | cons c rest =>
          cases rest with
          | nil => rfl
          | cons p rest' =>
            apply ih
            · simp at hf ⊢; omega
            · simp at hg ⊢; omega

lemma truncTo_step {c p : Element} {rest : List Element} {d : Nat}
    (h : d < rest.length + 2) :
    truncTo (c :: p :: rest) d =
      truncTo (Element.mk p.tag p.attrib (p.children ++ [c]) :: rest) d := by
  simp only [truncTo, List.length_cons, truncToAux]
  rw [if_neg (by simp; omega)]

lemma truncTo_length_aux : ∀ (n : Nat) (st : List Element) (d : Nat), st.length ≤ n →
    1 ≤ d → d ≤ st.length → (truncTo st d).length = d := by
  intro n
  induction n with
  | zero => intro st d h h1 h2; omega
  | succ n ih =>
    intro st d h h1 h2
    by_cases hle : st.length ≤ d
    · rw [truncTo_of_le hle]; omega
    · cases st with
      | nil => simp at h2; omega
      | cons c rest =>
        cases rest with
        | nil => simp at hle; omega
        | cons p rest' =>
          rw [truncTo_step (by simp at hle ⊢; omega)]
          exact ih _ d (by simp at h ⊢; omega) h1 (by simp at hle ⊢; omega)

lemma truncTo_length {st : List Element} {d : Nat} (h1 : 1 ≤ d) (h2 : d ≤ st.length) :
    (truncTo st d).length = d :=
  truncTo_length_aux st.length st d le_rfl h1 h2

lemma truncTo_trans_aux : ∀ (n : Nat) (st : List Element) (d d' : Nat), st.length ≤ n →
    d ≤ d' → truncTo (truncTo st d') d = truncTo st d := by
  intro n
  induction n with
  | zero =>
    intro st d d' h _
    have hn : st = [] := by cases st with | nil => rfl | cons a b => simp at h
    subst hn
    rfl
  | succ n ih =>
    intro st d d' h hdd
    by_cases hle : st.length ≤ d'
    · rw [truncTo_of_le hle]
    · cases st with
      | nil => simp at hle
      | cons c rest =>
        cases rest with
        | nil =>
          simp only [List.length_cons, List.length_nil] at hle
          have hd' : d' = 0 := by omega
          have hd0 : d = 0 := by omega
          subst hd'
          subst hd0
          rfl
        | cons p rest' =>
          rw [truncTo_step (by simp at hle ⊢; omega),
            truncTo_step (by simp at hle ⊢; omega)]
          exact ih _ d d' (by simp at h ⊢; omega) hdd

lemma truncTo_trans {st : List Element} {d d' : Nat} (h : d ≤ d') :
    truncTo (truncTo st d') d = truncTo st d :=
  truncTo_trans_aux st.length st d d' le_rfl h

/- == Except bind reductions =============================================== -/

@[simp] lemma exceptBind_ok {α β : Type} (a : α) (f : α → Except PyErr β) :
    (Except.ok a : Except PyErr α) >>= f = f a := rfl

@[simp] lemma exceptBind_err {α β : Type} (e : PyErr) (f : α → Except PyErr β) :
    (Except.error e : Except PyErr α) >>= f = .error e := rfl

/- == validity extraction ================================================== -/

lemma validTag_parts {t : List Nat} (h : validTag t = true) :
    t.length < 64 ∧ (∀ c ∈ t, c < 256 ∧ c ≠ 0) ∧
      (t = [] ∨ ∃ c r, t = c :: r ∧ c < 128 ∧ c ≠ 91) := by
  cases t with
  | nil => simp [validTag] at h ⊢
  | cons c r =>
    simp only [validTag, Bool.and_eq_true, decide_eq_true_eq, List.all_eq_true] at h
    obtain ⟨⟨h1, h2⟩, h3, h4⟩ := h
    refine ⟨by simpa using h1, ?_, Or.inr ⟨c, r, rfl, h3, h4⟩⟩
    intro x hx
    exact by simpa using h2 x hx

lemma validPropName_parts {nm : List Nat} (h : validPropName nm = true) :
    1 ≤ nm.length ∧ nm.length ≤ 127 ∧ (∀ c ∈ nm, c < 256) ∧ nm.getLast? ≠ some 0 := by
  simp only [validPropName, Bool.and_eq_true, decide_eq_true_eq, List.all_eq_true] at h
  exact ⟨h.1.1.1, h.1.1.2, fun c hc => by simpa using h.1.2 c hc, h.2⟩

/- == parser loop specifications =========================================== -/

lemma countBrackets_spec : ∀ (d : Nat) (pre rest : List Nat) (b : Nat) (fuel : Nat),
    b < 128 → b ≠ 91 → d + 1 ≤ fuel →
    countBrackets (pre ++ (List.replicate d 91 ++ b :: rest)) fuel (pre.length : Int)
      = .ok (d, (pre.length : Int) + d) := by
  intro d
  induction d with
  | zero =>
    intro pre rest b fuel hb hb' hf
    cases fuel with
    | zero => omega
    | succ fuel =>
      simp only [List.replicate, List.nil_append, countBrackets]
      rw [unpackByte_at]
      simp only [exceptBind_ok, decodeOneUtf8]
      rw [if_pos hb]
      simp only [exceptBind_ok]
      rw [if_neg hb']
      simp

  | succ d ih =>
    intro pre rest b fuel hb hb' hf
    cases fuel with
    | zero => omega
    | succ fuel =>
      have hbuf : pre ++ (List.replicate (d + 1) 91 ++ b :: rest)
          = pre ++ 91 :: (List.replicate d 91 ++ b :: rest) := by
        simp [List.replicate_succ]
      rw [hbuf]
      simp only [countBrackets]
      rw [unpackByte_at]
      simp only [exceptBind_ok, decodeOneUtf8]
      rw [if_pos (by norm_num)]
      simp only [exceptBind_ok, if_true]
      have h2 := ih (pre ++ [91]) rest b fuel hb hb' (by omega)
      have hbuf2 : (pre ++ [91]) ++ (List.replicate d 91 ++ b :: rest)
          = pre ++ 91 :: (List.replicate d 91 ++ b :: rest) := by
        simp
      rw [hbuf2] at h2
      have hpos : ((pre ++ [91]).length : Int) = (pre.length : Int) + 1 := by
        simp
      rw [hpos] at h2
      rw [h2]
      simp only [exceptBind_ok]
      push_cast
      ring_nf

lemma scanName_spec : ∀ (nm : List Nat) (pre rest : List Nat) (fuel : Nat),
    (∀ c ∈ nm, c ≠ 0) → nm.length + 1 ≤ fuel →
    scanName (pre ++ (nm ++ 0 :: rest)) fuel (pre.length : Int)
      = .ok (nm, (pre.length : Int) + nm.length + 1) := by
  intro nm
  induction nm with
  | nil =>
    intro pre rest fuel _ hf
    cases fuel with
    | zero => omega
    | succ fuel =>
      simp only [List.nil_append, scanName]
      rw [unpackByte_at]
      simp only [exceptBind_ok]
      rw [if_neg (by simp)]
      simp
  | cons c nm ih =>
    intro pre rest fuel h0 hf
    cases fuel with
    | zero => omega
    | succ fuel =>
      simp only [List.cons_append, scanName]
      rw [show pre ++ c :: (nm ++ 0 :: rest) = pre ++ c :: (nm ++ 0 :: rest) from rfl]
      rw [unpackByte_at]
      simp only [exceptBind_ok]
      rw [if_pos (by simpa using h0 c (List.mem_cons_self c nm))]
      have h2 := ih (pre ++ [c]) rest fuel (fun x hx => h0 x (List.mem_cons_of_mem c hx))
        (by simp at hf ⊢; omega)
      have hbuf2 : (pre ++ [c]) ++ (nm ++ 0 :: rest) = pre ++ c :: (nm ++ 0 :: rest) := by
        simp
      rw [hbuf2] at h2
      have hpos : ((pre ++ [c]).length : Int) = (pre.length : Int) + 1 := by simp
      rw [hpos] at h2
      rw [h2]
      simp only [exceptBind_ok, List.length_cons]
      push_cast
      ring_nf

lemma parseObject_spec {pre rest nm : List Nat} {d : Nat}
    (hd : 1 ≤ d) (htag : validTag nm = true) :
    parseObject (pre ++ (serTok (.obj nm d) ++ rest)) (pre.length : Int)
      = .ok (nm, d, (pre.length : Int) + ((serTok (.obj nm d)).length : Int)) := by
  obtain ⟨hlen, hchars, hhead⟩ := validTag_parts htag
  have hser : serTok (.obj nm d) = List.replicate d 91 ++ (nm ++ [0]) := by
    simp [serTok]
  have hserlen : (serTok (.obj nm d)).length = d + (nm.length + 1) := by
    rw [hser]; simp
  -- head byte after the bracket run
  have hheadb : ∃ b tl, nm ++ 0 :: rest = b :: tl ∧ b < 128 ∧ b ≠ 91 := by
    rcases hhead with hnil | ⟨c, r, hcr, hc1, hc2⟩
    · exact ⟨0, rest, by simp [hnil], by norm_num, by norm_num⟩
    · exact ⟨c, r ++ 0 :: rest, by simp [hcr], hc1, hc2⟩
  obtain ⟨b, tl, hbt, hb1, hb2⟩ := hheadb
  have htllen : nm.length + rest.length = tl.length := by
    have := congrArg List.length hbt
    simp at this
    omega
  have hbuf : pre ++ (serTok (.obj nm d) ++ rest) = pre ++ (List.replicate d 91 ++ b :: tl) := by
    rw [hser]
    simp only [List.append_assoc, List.cons_append, List.nil_append]
    rw [← hbt]
  simp only [parseObject]
  rw [hbuf]
  rw [countBrackets_spec d pre tl b _ hb1 hb2
    (by simp only [List.length_append, List.length_replicate, List.length_cons]; omega)]
  simp only [exceptBind_ok]
  -- the name scan starts right after the brackets
  have hsn := scanName_spec nm (pre ++ List.replicate d 91) rest
    (2 * (pre ++ (List.replicate d 91 ++ b :: tl)).length + 2)
    (fun c hc => (hchars c hc).2)
    (by simp only [List.length_append, List.length_replicate, List.length_cons]; omega)
  have hbuf2 : (pre ++ List.replicate d 91) ++ (nm ++ 0 :: rest)
      = pre ++ (List.replicate d 91 ++ b :: tl) := by
    simp only [List.append_assoc]
    rw [← hbt]
  have hpos2 : ((pre ++ List.replicate d 91).length : Int) = (pre.length : Int) + d := by
    simp
  rw [hbuf2, hpos2] at hsn
  rw [hsn]
  simp only [exceptBind_ok, hserlen]
  push_cast
  ring_nf

lemma parseString_spec {pre s post : List Nat} (h : 1 ≤ s.length) :
    parseString (pre ++ (s ++ post)) (pre.length : Int) (s.length : Int)
      = .ok (if s.getLast? = some 0 then s.dropLast else s) := by
  simp only [parseString]
  rw [if_neg (by push_cast; omega)]
  have hu : unpackBytes (pre ++ s ++ post) (pre.length : Int) s.length = .ok (s.take s.length) :=
    unpackBytes_at le_rfl
  rw [List.append_assoc] at hu
  rw [Int.toNat_natCast, hu]
  simp

/- == position-generalized variants ======================================== -/

lemma unpackByte_at' {buf : List Nat} (pre : List Nat) (b : Nat) (rest : List Nat) {pos : Int}
    (hbuf : buf = pre ++ b :: rest) (hpos : pos = (pre.length : Int)) :
    unpackByte buf pos = .ok b := by
  subst hbuf; subst hpos; exact unpackByte_at

lemma readI32_at' {buf : List Nat} (pre : List Nat) (u : Nat) (rest : List Nat) {pos : Int}
    (hbuf : buf = pre ++ (le4 u ++ rest)) (hpos : pos = (pre.length : Int)) :
    readI32 buf pos = .ok (i32ofLE (le4 u)) := by
  subst hbuf; subst hpos; exact readI32_at

lemma unpackBytes_at' {buf : List Nat} (pre mid post : List Nat) {n : Nat} {pos : Int}
    (hbuf : buf = pre ++ mid ++ post) (hpos : pos = (pre.length : Int)) (h : n ≤ mid.length) :
    unpackBytes buf pos n = .ok (mid.take n) := by
  subst hbuf; subst hpos; exact unpackBytes_at h

lemma parseString_at' {buf : List Nat} (pre s post : List Nat) {pos len : Int}
    (hbuf : buf = pre ++ (s ++ post)) (hpos : pos = (pre.length : Int))
    (hlen : len = (s.length : Int)) (h : 1 ≤ s.length) :
    parseString buf pos len = .ok (if s.getLast? = some 0 then s.dropLast else s) := by
  subst hbuf; subst hpos; subst hlen; exact parseString_spec h

lemma parseObject_at' {buf : List Nat} (pre : List Nat) (nm : List Nat) (d : Nat)
    (rest : List Nat) {pos : Int}
    (hbuf : buf = pre ++ (serTok (.obj nm d) ++ rest)) (hpos : pos = (pre.length : Int))
    (hd : 1 ≤ d) (htag : validTag nm = true) :
    parseObject buf pos
      = .ok (nm, d, (pre.length : Int) + ((serTok (.obj nm d)).length : Int)) := by
  subst hbuf; subst hpos; exact parseObject_spec hd htag

/- == serData shapes ======================================================= -/

lemma all_isIntV_map (ns : List Int) : (ns.map PyVal.int).all isIntV = true := by
  induction ns with
  | nil => rfl
  | cons n rest ih => simp [isIntV, ih]

lemma serData_int (ns : List Int) :
    serData (ns.map PyVal.int)
      = 105 :: le4 ns.length ++ (ns.map (fun n => le4 (u32ofI n))).flatten := by
  simp only [serData]
  rw [if_pos (all_isIntV_map ns)]
  simp [List.map_map, Function.comp_def]

lemma all_isFloatV_map (bs : List Nat) : (bs.map PyVal.float).all isFloatV = true := by
  induction bs with
  | nil => rfl
  | cons b rest ih => simp [isFloatV, ih]

lemma serfloat_payload (bs : List Nat) :
    List.map (fun v => match v with | PyVal.float b => le4 b | _ => ([] : List Nat))
      (List.map PyVal.float bs) = List.map le4 bs := by
  induction bs with
  | nil => rfl
  | cons b rest ih => simp only [List.map_cons, ih]

lemma serData_float (bs : List Nat) (h : bs ≠ []) :
    serData (bs.map PyVal.float) = 102 :: le4 bs.length ++ (bs.map le4).flatten := by
  cases bs with
  | nil => exact absurd rfl h
  | cons b rest =>
    simp only [serData, List.map_cons]
    rw [if_neg (by simp [isIntV])]
    have hall : (PyVal.float b :: List.map PyVal.float rest).all isFloatV = true := by
      simp only [List.all_cons, isFloatV, Bool.true_and]
      exact all_isFloatV_map rest
    rw [if_pos hall]
    simp only [List.length_map, List.length_cons, List.map_cons, serfloat_payload]

lemma serData_str (s : List Nat) :
    serData [PyVal.str s] = 115 :: le4 1 ++ le4 (s.length + 1) ++ s ++ [0] := by
  simp only [serData]
  rw [if_neg (by simp [isIntV])]
  rw [if_neg (by simp [isFloatV])]

/- == payload lemmas ======================================================= -/

lemma flatten4_length (gs : List (List Nat)) (h : ∀ g ∈ gs, g.length = 4) :
    gs.flatten.length = 4 * gs.length := by
  induction gs with
  | nil => rfl
  | cons g rest ih =>
    have h1 := h g (List.mem_cons_self g rest)
    have h2 := ih (fun x hx => h x (List.mem_cons_of_mem g hx))
    simp only [List.flatten_cons, List.length_append, List.length_cons, h1, h2]
    ring

lemma list_len4 {g : List Nat} (h : g.length = 4) : ∃ a b c d, g = [a, b, c, d] := by
  cases g with
  | nil => simp at h
  | cons a g1 =>
    cases g1 with
    | nil => simp at h
    | cons b g2 =>
      cases g2 with
      | nil => simp at h
      | cons c g3 =>
        cases g3 with
        | nil => simp at h
        | cons d g4 =>
          cases g4 with
          | nil => exact ⟨a, b, c, d, rfl⟩
          | cons e g5 => simp at h

lemma chunk4_flatten : ∀ (gs : List (List Nat)), (∀ g ∈ gs, g.length = 4) →
    chunk4 gs.flatten = gs := by
  intro gs
  induction gs with
  | nil => intro _; rfl
  | cons g rest ih =>
    intro h
    obtain ⟨a, b, c, d, hg⟩ := list_len4 (h g (List.mem_cons_self g rest))
    subst hg
    simp only [List.flatten_cons, List.cons_append, List.nil_append, chunk4,
      List.append_eq]
    rw [ih (fun x hx => h x (List.mem_cons_of_mem _ hx))]

lemma map_int_roundtrip (ns : List Int)
    (h : ∀ n ∈ ns, -2147483648 ≤ n ∧ n < 2147483648) :
    (ns.map (fun n => le4 (u32ofI n))).map (fun g => PyVal.int (i32ofLE g))
      = ns.map PyVal.int := by
  induction ns with
  | nil => rfl
  | cons n rest ih =>
    simp only [List.map_cons, List.cons.injEq]
    constructor
    · rw [i32ofLE_le4_u32ofI (h n (List.mem_cons_self n rest)).1
        (h n (List.mem_cons_self n rest)).2]
    · exact ih (fun x hx => h x (List.mem_cons_of_mem n hx))

lemma map_float_roundtrip (bs : List Nat) (h : ∀ b ∈ bs, b < 4294967296) :
    (bs.map le4).map (fun g => PyVal.float (u32ofLE g)) = bs.map PyVal.float := by
  induction bs with
  | nil => rfl
  | cons b rest ih =>
    simp only [List.map_cons, List.cons.injEq]
    constructor
    · rw [u32ofLE_le4 (h b (List.mem_cons_self b rest))]
    · exact ih (fun x hx => h x (List.mem_cons_of_mem b hx))

/- == validArr case analysis =============================================== -/

lemma all_int_extract : ∀ (vs : List PyVal),
    vs.all (fun v => match v with | .int n => inI32 n | _ => false) = true →
    ∃ ns : List Int, vs = ns.map PyVal.int ∧
      ∀ n ∈ ns, -2147483648 ≤ n ∧ n < 2147483648 := by
  intro vs
  induction vs with
  | nil => intro _; exact ⟨[], rfl, by simp⟩
  | cons v rest ih =>
    intro h
    simp only [List.all_cons, Bool.and_eq_true] at h
    obtain ⟨hv, hrest⟩ := h
    obtain ⟨ns, hns, hr⟩ := ih hrest
    cases v with
    | int n =>
      refine ⟨n :: ns, by simp [hns], ?_⟩
      intro x hx
      rcases List.mem_cons.mp hx with hx | hx
      · subst hx
        simp only [inI32, Bool.and_eq_true, decide_eq_true_eq] at hv
        exact hv
      · exact hr x hx
    | float b => simp at hv
    | str s => simp at hv

lemma all_float_extract : ∀ (vs : List PyVal),
    vs.all (fun v => match v with | .float b => decide (b < 4294967296) | _ => false) = true →
    ∃ bs : List Nat, vs = bs.map PyVal.float ∧ ∀ b ∈ bs, b < 4294967296 := by
  intro vs
  induction vs with
  | nil => intro _; exact ⟨[], rfl, by simp⟩
  | cons v rest ih =>
    intro h
    simp only [List.all_cons, Bool.and_eq_true] at h
    obtain ⟨hv, hrest⟩ := h
    obtain ⟨bs, hbs, hr⟩ := ih hrest
    cases v with
    | int n => simp at hv
    | float b =>
      refine ⟨b :: bs, by simp [hbs], ?_⟩
      intro x hx
      rcases List.mem_cons.mp hx with hx | hx
      · subst hx
        simpa using hv
      · exact hr x hx
    | str s => simp at hv

lemma validArr_cases {vs : List PyVal} (h : validArr vs = true) :
    (∃ ns : List Int, vs = ns.map PyVal.int ∧ ns ≠ [] ∧ ns.length < 2147483648 ∧
        ∀ n ∈ ns, -2147483648 ≤ n ∧ n < 2147483648) ∨
    (∃ bs : List Nat, vs = bs.map PyVal.float ∧ bs ≠ [] ∧ bs.length < 2147483648 ∧
        ∀ b ∈ bs, b < 4294967296) ∨
    (∃ s : List Nat, vs = [PyVal.str s] ∧ (∀ c ∈ s, c < 256) ∧
        s.length + 1 < 2147483648) := by
  simp only [validArr, Bool.and_eq_true, Bool.or_eq_true, decide_eq_true_eq] at h
  obtain ⟨⟨hne, hlen⟩, hcase⟩ := h
  rcases hcase with (hint | hfl) | hstr
  · left
    obtain ⟨ns, hns, hr⟩ := all_int_extract vs hint
    subst hns
    refine ⟨ns, rfl, ?_, ?_, hr⟩
    · intro hn; subst hn; simp at hne
    · simpa using hlen
  · right; left
    obtain ⟨bs, hbs, hr⟩ := all_float_extract vs hfl
    subst hbs
    refine ⟨bs, rfl, ?_, ?_, hr⟩
    · intro hn; subst hn; simp at hne
    · simpa using hlen
  · right; right
    revert hstr
    cases vs with
    | nil => intro hstr; simp at hstr
    | cons v rest =>
      cases rest with
      | nil =>
        cases v with
        | int n => intro hstr; simp at hstr
        | float b => intro hstr; simp at hstr
        | str s =>
          intro hstr
          simp only [Bool.and_eq_true, decide_eq_true_eq, List.all_eq_true] at hstr
          exact ⟨s, rfl, fun c hc => by simpa using hstr.1 c hc, hstr.2⟩
      | cons w rest' => intro hstr; simp at hstr

/- == parseData specifications ============================================= -/

lemma parseData_int_spec {pre post : List Nat} {ns : List Int}
    (hrange : ∀ n ∈ ns, -2147483648 ≤ n ∧ n < 2147483648)
    (hlen : ns.length < 2147483648) (hne : ns ≠ []) :
    parseData (pre ++ (serData (ns.map PyVal.int) ++ post)) (pre.length : Int)
      = .ok (ns.map PyVal.int,
          (pre.length : Int) + ((serData (ns.map PyVal.int)).length : Int)) := by
  have hpay : ∀ g ∈ ns.map (fun n => le4 (u32ofI n)), g.length = 4 := by
    intro g hg
    obtain ⟨n, _, hgn⟩ := List.mem_map.mp hg
    rw [← hgn]
    exact le4_length _
  have hpaylen : ((ns.map (fun n => le4 (u32ofI n))).flatten).length = 4 * ns.length := by
    rw [flatten4_length _ hpay, List.length_map]
  have hnslen : 0 < ns.length := List.length_pos.mpr hne
  rw [serData_int]
  simp only [parseData]
  rw [unpackByte_at' pre 105
    (le4 ns.length ++ ((ns.map (fun n => le4 (u32ofI n))).flatten ++ post)) (by simp) rfl]
  simp only [exceptBind_ok, decodeOneUtf8]
  rw [if_pos (by norm_num)]
  simp only [exceptBind_ok]
  rw [readI32_at' (pre ++ [105]) ns.length ((ns.map (fun n => le4 (u32ofI n))).flatten ++ post)
    (by simp) (by simp)]
  simp only [exceptBind_ok]
  rw [i32ofLE_le4_nat hlen]
  rw [if_pos trivial]
  rw [if_neg (by push_cast; omega)]
  rw [Int.toNat_natCast]
  rw [unpackBytes_at' (pre ++ [105] ++ le4 ns.length) ((ns.map (fun n => le4 (u32ofI n))).flatten)
    post (by simp) (by simp [le4_length]; omega) (by omega)]
  simp only [exceptBind_ok]
  rw [show ((ns.map (fun n => le4 (u32ofI n))).flatten).take (4 * ns.length)
      = (ns.map (fun n => le4 (u32ofI n))).flatten from by
    rw [← hpaylen]; exact List.take_length ..]
  rw [chunk4_flatten _ hpay, map_int_roundtrip _ hrange]
  simp only [List.length_cons, List.length_append, le4_length, hpaylen]
  push_cast
  ring_nf

lemma parseData_float_spec {pre post : List Nat} {bs : List Nat}
    (hrange : ∀ b ∈ bs, b < 4294967296)
    (hlen : bs.length < 2147483648) (hne : bs ≠ []) :
    parseData (pre ++ (serData (bs.map PyVal.float) ++ post)) (pre.length : Int)
      = .ok (bs.map PyVal.float,
          (pre.length : Int) + ((serData (bs.map PyVal.float)).length : Int)) := by
  have hpay : ∀ g ∈ bs.map le4, g.length = 4 := by
    intro g hg
    obtain ⟨n, _, hgn⟩ := List.mem_map.mp hg
    rw [← hgn]
    exact le4_length _
  have hpaylen : ((bs.map le4).flatten).length = 4 * bs.length := by
    rw [flatten4_length _ hpay, List.length_map]
  have hbslen : 0 < bs.length := List.length_pos.mpr hne
  rw [serData_float _ hne]
  simp only [parseData]
  rw [unpackByte_at' pre 102 (le4 bs.length ++ ((bs.map le4).flatten ++ post)) (by simp) rfl]
  simp only [exceptBind_ok, decodeOneUtf8]
  rw [if_pos (by norm_num)]
  simp only [exceptBind_ok]
  rw [readI32_at' (pre ++ [102]) bs.length ((bs.map le4).flatten ++ post) (by simp) (by simp)]
  simp only [exceptBind_ok]
  rw [i32ofLE_le4_nat hlen]
  rw [if_pos trivial]
  rw [if_neg (by norm_num)]
  rw [if_neg (by push_cast; omega)]
  rw [Int.toNat_natCast]
  rw [unpackBytes_at' (pre ++ [102] ++ le4 bs.length) ((bs.map le4).flatten)
    post (by simp) (by simp [le4_length]; omega) (by omega)]
  simp only [exceptBind_ok]
  rw [show ((bs.map le4).flatten).take (4 * bs.length) = (bs.map le4).flatten from by
    rw [← hpaylen]; exact List.take_length ..]
  rw [chunk4_flatten _ hpay, map_float_roundtrip _ hrange]
  simp only [List.length_cons, List.length_append, le4_length, hpaylen]
  push_cast
  ring_nf

lemma parseData_str_spec {pre post s : List Nat}
    (hlen : s.length + 1 < 2147483648) :
    parseData (pre ++ (serData [PyVal.str s] ++ post)) (pre.length : Int)
      = .ok ([PyVal.str s],
          (pre.length : Int) + ((serData [PyVal.str s]).length : Int)) := by
  rw [serData_str]
  simp only [parseData]
  rw [unpackByte_at' pre 115 (le4 1 ++ (le4 (s.length + 1) ++ (s ++ 0 :: post)))
    (by simp) rfl]
  simp only [exceptBind_ok, decodeOneUtf8]
  rw [if_pos (by norm_num)]
  simp only [exceptBind_ok]
  rw [readI32_at' (pre ++ [115]) 1 (le4 (s.length + 1) ++ (s ++ 0 :: post))
    (by simp) (by simp)]
  simp only [exceptBind_ok]
  rw [if_neg (by norm_num)]
  rw [if_neg (by norm_num)]
  rw [if_pos trivial]
  rw [readI32_at' (pre ++ [115] ++ le4 1) (s.length + 1) (s ++ 0 :: post)
    (by simp) (by simp [le4_length]; omega)]
  simp only [exceptBind_ok]
  rw [i32ofLE_le4_nat hlen]
  rw [parseString_at' (pre ++ [115] ++ le4 1 ++ le4 (s.length + 1)) (s ++ [0]) post
    (by simp) (by simp [le4_length]; omega) (by push_cast; simp) (by simp)]
  simp only [exceptBind_ok]
  rw [if_pos (List.getLast?_concat ..), List.dropLast_concat]
  simp only [List.length_cons, List.length_append, le4_length, List.length_nil]
  push_cast
  ring_nf

lemma parseData_at' {buf : List Nat} (pre : List Nat) (vs : List PyVal) (post : List Nat)
    {pos : Int} (hbuf : buf = pre ++ (serData vs ++ post)) (hpos : pos = (pre.length : Int))
    (hvs : validArr vs = true) :
    parseData buf pos
      = .ok (vs, (pre.length : Int) + ((serData vs).length : Int)) := by
  subst hbuf; subst hpos
  rcases validArr_cases hvs with ⟨ns, hns, hne, hlen, hr⟩ | ⟨bs, hbs, hne, hlen, hr⟩
    | ⟨s, hs, _, hlen⟩
  · subst hns; exact parseData_int_spec hr hlen hne
  · subst hbs; exact parseData_float_spec hr hlen hne
  · subst hs; exact parseData_str_spec hlen

/- == parseProperty specification ========================================== -/

lemma parseProperty_spec {pre post nm : List Nat} {vs : List PyVal}
    (hnm : validPropName nm = true) (hvs : validArr vs = true) :
    parseProperty (pre ++ (serTok (.prop nm vs) ++ post)) (pre.length : Int)
      = .ok (nm, vs, (pre.length : Int) + ((serTok (.prop nm vs)).length : Int)) := by
  obtain ⟨h1, h2, h3, h4⟩ := validPropName_parts hnm
  have hser : serTok (.prop nm vs) = 33 :: nm.length :: (nm ++ serData vs) := by
    simp [serTok]
  rw [hser]
  simp only [parseProperty]
  rw [unpackByte_at' (pre ++ [33]) nm.length (nm ++ serData vs ++ post)
    (by simp) (by simp)]
  simp only [exceptBind_ok]
  rw [if_pos (by omega)]
  rw [parseString_at' (pre ++ [33, nm.length]) nm (serData vs ++ post)
    (by simp) (by simp; omega) (by simp) h1]
  simp only [exceptBind_ok]
  rw [if_neg h4]
  rw [parseData_at' (pre ++ [33, nm.length] ++ nm) vs post (by simp)
    (by simp; push_cast; ring) hvs]
  simp only [exceptBind_ok]
  simp only [List.length_cons, List.length_append, List.length_nil]
  push_cast
  ring_nf

lemma parseProperty_at' {buf : List Nat} (pre nm : List Nat) (vs : List PyVal)
    (post : List Nat) {pos : Int}
    (hbuf : buf = pre ++ (serTok (.prop nm vs) ++ post)) (hpos : pos = (pre.length : Int))
    (hnm : validPropName nm = true) (hvs : validArr vs = true) :
    parseProperty buf pos
      = .ok (nm, vs, (pre.length : Int) + ((serTok (.prop nm vs)).length : Int)) := by
  subst hbuf; subst hpos; exact parseProperty_spec hnm hvs

/- == token-stream lemmas ================================================== -/

lemma serToksBytes_append (ts1 ts2 : List Tok) :
    serToksBytes (ts1 ++ ts2) = serToksBytes ts1 ++ serToksBytes ts2 := by
  induction ts1 with
  | nil => rfl
  | cons t ts ih => simp [serToksBytes, ih]

lemma serTok_length_ge (t : Tok) (h : validTok t = true) : 2 ≤ (serTok t).length := by
  cases t with
  | obj nm d =>
    simp only [validTok, Bool.and_eq_true, decide_eq_true_eq] at h
    simp only [serTok, List.length_append, List.length_replicate, List.length_cons,
      List.length_nil]
    omega
  | prop nm vs =>
    have hser : serTok (Tok.prop nm vs) = 33 :: nm.length :: (nm ++ serData vs) := rfl
    rw [hser]
    simp only [List.length_cons]
    omega

lemma two_mul_le_serToksBytes : ∀ (ts : List Tok), (∀ t ∈ ts, validTok t = true) →
    2 * ts.length ≤ (serToksBytes ts).length := by
  intro ts
  induction ts with
  | nil => intro _; simp [serToksBytes]
  | cons t rest ih =>
    intro h
    have h1 := serTok_length_ge t (h t (List.mem_cons_self t rest))
    have h2 := ih (fun x hx => h x (List.mem_cons_of_mem t hx))
    simp only [serToksBytes, List.length_append, List.length_cons]
    omega

lemma runToks_append (ts1 ts2 : List Tok) (s : Nat × List Element) :
    runToks (ts1 ++ ts2) s = runToks ts2 (runToks ts1 s) :=
  List.foldl_append ..

lemma runToks_cons (t : Tok) (ts : List Tok) (s : Nat × List Element) :
    runToks (t :: ts) s = runToks ts (runTok s t) := rfl

/- == readLoop step lemmas ================================================= -/

lemma readLoop_obj_step {bdata : List Nat} (pre nm : List Nat) (d : Nat) (post : List Nat)
    {fuel cd : Nat} {st : List Element} {pos : Int}
    (hbuf : bdata = pre ++ (serTok (.obj nm d) ++ post)) (hpos : pos = (pre.length : Int))
    (hd : 1 ≤ d) (htag : validTag nm = true) :
    readLoop bdata (fuel + 1) pos st cd
      = readLoop bdata fuel (((pre ++ serTok (.obj nm d)).length : Nat) : Int)
          (Element.mk nm [] [] :: (if ¬ d > cd then truncTo st d else st)) d := by
  cases d with
  | zero => omega
  | succ d' =>
    have hser : serTok (.obj nm (d' + 1)) = 91 :: (List.replicate d' 91 ++ (nm ++ [0])) := by
      simp [serTok, List.replicate_succ]
    subst hbuf
    subst hpos
    simp only [readLoop]
    rw [if_pos (by
      rw [hser]
      simp only [List.length_append, List.length_cons]
      push_cast
      omega)]
    rw [unpackByte_at' pre 91 (List.replicate d' 91 ++ (nm ++ [0]) ++ post)
      (by rw [hser]; simp) rfl]
    simp only [exceptBind_ok, decodeOneUtf8]
    rw [if_pos (by norm_num)]
    simp only [exceptBind_ok, if_true]
    rw [parseObject_at' pre nm (d' + 1) post rfl rfl hd htag]
    simp only [exceptBind_ok]
    congr 1
    simp only [List.length_append]
    push_cast
    ring

lemma readLoop_prop_step {bdata : List Nat} (pre nm : List Nat) (vs : List PyVal)
    (post : List Nat) {fuel cd : Nat} {st : List Element} {pos : Int}
    (hbuf : bdata = pre ++ (serTok (.prop nm vs) ++ post)) (hpos : pos = (pre.length : Int))
    (hnm : validPropName nm = true) (hvs : validArr vs = true) :
    readLoop bdata (fuel + 1) pos st cd
      = readLoop bdata fuel (((pre ++ serTok (.prop nm vs)).length : Nat) : Int)
          (setTop st nm vs) cd := by
  have hser : serTok (.prop nm vs) = 33 :: (nm.length :: (nm ++ serData vs)) := by
    simp [serTok]
  subst hbuf
  subst hpos
  simp only [readLoop]
  rw [if_pos (by
    have h2 := serTok_length_ge (.prop nm vs) (by simp [validTok, hnm, hvs])
    simp only [List.length_append]
    push_cast
    omega)]
  rw [unpackByte_at' pre 33 (nm.length :: (nm ++ serData vs) ++ post)
    (by rw [hser]; simp) rfl]
  simp only [exceptBind_ok, decodeOneUtf8]
  rw [if_pos (by norm_num)]
  simp only [exceptBind_ok]
  rw [if_neg (by norm_num)]
  rw [if_pos trivial]
  rw [parseProperty_at' pre nm vs post rfl rfl hnm hvs]
  simp only [exceptBind_ok]
  congr 1
  simp only [List.length_append]
  push_cast
  ring

lemma readLoop_eof {buf : List Nat} {fuel cd : Nat} {st : List Element} {pos : Int}
    (hf : 1 ≤ fuel) (hpos : pos = (buf.length : Int)) :
    readLoop buf fuel pos st cd = .ok (collapseStack st) := by
  cases fuel with
  | zero => omega
  | succ f =>
    subst hpos
    simp only [readLoop]
    rw [if_neg (by omega)]

lemma readLoop_run : ∀ (ts : List Tok) (pre post : List Nat) (fuel cd : Nat)
    (st : List Element), (∀ t ∈ ts, validTok t = true) → ts.length ≤ fuel →
    readLoop (pre ++ (serToksBytes ts ++ post)) fuel (pre.length : Int) st cd
      = readLoop (pre ++ (serToksBytes ts ++ post)) (fuel - ts.length)
          (((pre ++ serToksBytes ts).length : Nat) : Int)
          (runToks ts (cd, st)).2 (runToks ts (cd, st)).1 := by
  intro ts
  induction ts with
  | nil =>
    intro pre post fuel cd st _ _
    simp [serToksBytes, runToks]
  | cons t rest ih =>
    intro pre post fuel cd st hv hf
    cases fuel with
    | zero => simp at hf
    | succ f =>
      have hvt := hv t (List.mem_cons_self t rest)
      have hvr : ∀ x ∈ rest, validTok x = true :=
        fun x hx => hv x (List.mem_cons_of_mem t hx)
      have hbuf : pre ++ (serToksBytes (t :: rest) ++ post)
          = pre ++ (serTok t ++ (serToksBytes rest ++ post)) := by
        simp [serToksBytes]
      have hbuf2 : (pre ++ serTok t) ++ (serToksBytes rest ++ post)
          = pre ++ (serTok t ++ (serToksBytes rest ++ post)) := by
        simp
      have hstep : readLoop (pre ++ (serTok t ++ (serToksBytes rest ++ post))) (f + 1)
          (pre.length : Int) st cd
          = readLoop (pre ++ (serTok t ++ (serToksBytes rest ++ post))) f
              (((pre ++ serTok t).length : Nat) : Int)
              (runTok (cd, st) t).2 (runTok (cd, st) t).1 := by
        cases t with
        | obj nm d =>
          simp only [validTok, Bool.and_eq_true, decide_eq_true_eq] at hvt
          exact readLoop_obj_step pre nm d (serToksBytes rest ++ post) rfl rfl hvt.2 hvt.1
        | prop nm vs =>
          simp only [validTok, Bool.and_eq_true] at hvt
          exact readLoop_prop_step pre nm vs (serToksBytes rest ++ post) rfl rfl hvt.1 hvt.2
      rw [hbuf, hstep]
      have h3 := ih (pre ++ serTok t) post f (runTok (cd, st) t).1 (runTok (cd, st) t).2 hvr
        (by simp at hf; omega)
      rw [hbuf2] at h3
      rw [h3]
      have hlen : ((pre ++ serTok t) ++ serToksBytes rest).length
          = (pre ++ serToksBytes (t :: rest)).length := by
        simp [serToksBytes]
      rw [hlen]
      have hfuel : f - rest.length = (f + 1) - (t :: rest).length := by
        simp only [List.length_cons]
        omega
      rw [hfuel]
      rw [show runToks rest (runTok (cd, st) t) = runToks (t :: rest) (cd, st) from rfl]

lemma read_ser (ts : List Tok) (h : ∀ t ∈ ts, validTok t = true) :
    read_meshfile (magicBytes ++ serToksBytes ts)
      = .ok (collapseStack (runToks ts (0, [fileRoot])).2) := by
  have hts : 2 * ts.length ≤ (serToksBytes ts).length := two_mul_le_serToksBytes ts h
  simp only [read_meshfile]
  rw [unpackBytes_at' [] magicBytes (serToksBytes ts) (by simp) (by simp)
    (by norm_num [magicBytes])]
  simp only [exceptBind_ok]
  rw [if_pos (by norm_num [magicBytes])]
  have hrun := readLoop_run ts magicBytes [] ((magicBytes ++ serToksBytes ts).length + 1)
    0 [fileRoot] h (by simp [magicBytes]; omega)
  simp only [List.append_nil] at hrun
  have hpos0 : ((magicBytes.length : Nat) : Int) = (4 : Int) := by norm_num [magicBytes]
  rw [hpos0] at hrun
  rw [show Element.mk strFile [] [] = fileRoot from rfl]
  rw [hrun]
  exact readLoop_eof (by simp [magicBytes]; omega) rfl

/- == association list lemmas ============================================== -/

lemma lookupA_not_mem {al : List (List Nat × List PyVal)} {k : List Nat}
    (h : k ∉ al.map Prod.fst) : lookupA al k = none := by
  induction al with
  | nil => rfl
  | cons kv rest ih =>
    simp only [List.map_cons, List.mem_cons] at h
    push_neg at h
    cases kv with
    | mk k' v =>
      simp only [lookupA]
      rw [if_neg (fun hh => h.1 hh.symm)]
      exact ih h.2

lemma setPairs_fresh {al : List (List Nat × List PyVal)} {k : List Nat} {v : List PyVal}
    (h : k ∉ al.map Prod.fst) : setPairs al k v = al ++ [(k, v)] := by
  induction al with
  | nil => rfl
  | cons kv rest ih =>
    simp only [List.map_cons, List.mem_cons] at h
    push_neg at h
    cases kv with
    | mk k' v' =>
      simp only [setPairs]
      rw [if_neg (fun hh => h.1 hh.symm)]
      rw [ih h.2]
      simp

lemma isOrderedSub_keys_sublist : ∀ (ord : List (List Nat))
    (al : List (List Nat × List PyVal)), isOrderedSub ord al = true →
    (al.map Prod.fst).Sublist ord := by
  intro ord
  induction ord with
  | nil =>
    intro al h
    cases al with
    | nil => simp
    | cons kv rest => simp [isOrderedSub] at h
  | cons k ks ih =>
    intro al h
    cases al with
    | nil => simp
    | cons kv rest =>
      cases kv with
      | mk k' v =>
        simp only [isOrderedSub] at h
        by_cases hk : k' = k
        · rw [if_pos hk] at h
          subst hk
          simpa using List.Sublist.cons₂ k' (ih rest h)
        · rw [if_neg hk] at h
          exact List.Sublist.cons k (ih ((k', v) :: rest) h)

lemma isOrderedSub_keys_nodup {ord : List (List Nat)} {al : List (List Nat × List PyVal)}
    (h : isOrderedSub ord al = true) (hord : ord.Nodup) : (al.map Prod.fst).Nodup :=
  (isOrderedSub_keys_sublist ord al h).nodup hord

lemma isOrderedSub_keys_mem : ∀ (ord : List (List Nat))
    (al : List (List Nat × List PyVal)), isOrderedSub ord al = true →
    ∀ kv ∈ al, kv.1 ∈ ord := by
  intro ord al h kv hkv
  have hsub := isOrderedSub_keys_sublist ord al h
  exact hsub.subset (List.mem_map_of_mem Prod.fst hkv)

lemma propToks_nil_attrib : ∀ (ord : List (List Nat)) (t : List Nat) (ch : List Element),
    propToks ord (Element.mk t [] ch) = [] := by
  intro ord
  induction ord with
  | nil => intro t ch; rfl
  | cons k ks ih =>
    intro t ch
    simp only [propToks, Element.get, Element.attrib_mk, lookupA]
    exact ih t ch

lemma propToks_skip_head : ∀ (ks : List (List Nat)) (t k' : List Nat) (v : List PyVal)
    (rest : List (List Nat × List PyVal)) (ch : List Element), k' ∉ ks →
    propToks ks (Element.mk t ((k', v) :: rest) ch)
      = propToks ks (Element.mk t rest ch) := by
  intro ks
  induction ks with
  | nil => intro t k' v rest ch _; rfl
  | cons p ps ih =>
    intro t k' v rest ch h
    simp only [List.mem_cons, not_or] at h
    simp only [propToks, Element.get, Element.attrib_mk, lookupA]
    rw [if_neg h.1]
    cases hl : lookupA rest p with
    | none =>
      simp only []
      exact ih t k' v rest ch h.2
    | some w =>
      simp only []
      rw [ih t k' v rest ch h.2]

/-- The writer's fixed-order emission of a node whose attribute list is an
ordered selection from `order` is exactly the node's own attribute list. -/
lemma propToks_of_orderedSub : ∀ (ord : List (List Nat))
    (al : List (List Nat × List PyVal)) (t : List Nat) (ch : List Element),
    isOrderedSub ord al = true → ord.Nodup →
    propToks ord (Element.mk t al ch) = al.map (fun kv => Tok.prop kv.1 kv.2) := by
  intro ord
  induction ord with
  | nil =>
    intro al t ch h _
    cases al with
    | nil => rfl
    | cons kv rest => simp [isOrderedSub] at h
  | cons k ks ih =>
    intro al t ch h hnd
    have hk_not_ks : k ∉ ks := by simp at hnd; exact hnd.1
    have hnd_ks : ks.Nodup := by simp at hnd; exact hnd.2
    cases al with
    | nil =>
      rw [propToks_nil_attrib]
      rfl
    | cons kv rest =>
      cases kv with
      | mk k' v =>
        simp only [isOrderedSub] at h
        by_cases hk : k' = k
        · rw [if_pos hk] at h
          subst hk
          simp only [propToks, Element.get, Element.attrib_mk, lookupA,
            eq_self_iff_true, if_true, List.map_cons]
          rw [propToks_skip_head ks t k' v rest ch hk_not_ks]
          rw [ih rest t ch h hnd_ks]
        · rw [if_neg hk] at h
          have hkeys := isOrderedSub_keys_mem ks ((k', v) :: rest) h
          have hget : lookupA ((k', v) :: rest) k = none := by
            apply lookupA_not_mem
            intro hmem
            obtain ⟨kv2, hkv2, hkv2eq⟩ := List.mem_map.mp hmem
            have := hkeys kv2 hkv2
            rw [hkv2eq] at this
            exact hk_not_ks this
          simp only [propToks, Element.get, Element.attrib_mk, hget]
          exact ih ((k', v) :: rest) t ch h hnd_ks

/- == running token streams: property folds ================================ -/

lemma run_props : ∀ (al : List (List Nat × List PyVal)) (cd : Nat) (e : Element)
    (rest : List Element),
    runToks (al.map (fun kv => Tok.prop kv.1 kv.2)) (cd, e :: rest)
      = (cd, (al.foldl (fun acc kv =>
          Element.mk acc.tag (setPairs acc.attrib kv.1 kv.2) acc.children) e) :: rest) := by
  intro al
  induction al with
  | nil => intro cd e rest; rfl
  | cons kv rest2 ih =>
    intro cd e rest
    cases kv with
    | mk k v =>
      simp only [List.map_cons, runToks_cons]
      rw [show runTok (cd, e :: rest) (Tok.prop k v)
        = (cd, Element.mk e.tag (setPairs e.attrib k v) e.children :: rest) from rfl]
      rw [ih]
      rfl

lemma foldl_setPairs : ∀ (al : List (List Nat × List PyVal)) (t : List Nat)
    (a0 : List (List Nat × List PyVal)) (ch : List Element),
    (al.map Prod.fst).Nodup → (∀ kv ∈ al, kv.1 ∉ a0.map Prod.fst) →
    al.foldl (fun acc kv =>
        Element.mk acc.tag (setPairs acc.attrib kv.1 kv.2) acc.children) (Element.mk t a0 ch)
      = Element.mk t (a0 ++ al) ch := by
  intro al
  induction al with
  | nil => intro t a0 ch _ _; simp
  | cons kv rest ih =>
    intro t a0 ch hnd hfresh
    cases kv with
    | mk k v =>
      simp only [List.foldl_cons, Element.tag_mk, Element.attrib_mk, Element.children_mk]
      rw [setPairs_fresh (hfresh (k, v) (List.mem_cons_self _ _))]
      rw [ih t (a0 ++ [(k, v)]) ch (by simp at hnd; exact hnd.2) ?_]
      · simp
      · intro kv2 hkv2
        simp only [List.map_append, List.mem_append, List.map_cons, List.map_nil,
          List.mem_cons, List.not_mem_nil, or_false, not_or]
        constructor
        · exact fun hmem => (hfresh kv2 (List.mem_cons_of_mem _ hkv2)) hmem
        · simp only [List.map_cons] at hnd
          intro hk
          have := List.nodup_cons.mp hnd
          exact this.1 (hk ▸ List.mem_map_of_mem Prod.fst hkv2)

/-- Combined form used everywhere below: running an object token followed by
the node's property tokens pushes the completed node on the truncated stack. -/
lemma run_node (d : Nat) (hd : 1 ≤ d) (tag : List Nat)
    (al : List (List Nat × List PyVal)) (hnd : (al.map Prod.fst).Nodup) :
    ∀ (cd : Nat) (st : List Element), st.length = cd + 1 → d ≤ cd + 1 →
    runToks (Tok.obj tag d :: al.map (fun kv => Tok.prop kv.1 kv.2)) (cd, st)
      = (d, Element.mk tag al [] :: truncTo st d) := by
  intro cd st hlen hdc
  rw [runToks_cons]
  have hobj : runTok (cd, st) (Tok.obj tag d)
      = (d, Element.mk tag [] [] :: truncTo st d) := by
    simp only [runTok]
    by_cases hgt : d > cd
    · rw [if_neg (by simpa using hgt)]
      rw [truncTo_of_le (by omega)]
    · rw [if_pos hgt]
  rw [hobj, run_props]
  rw [foldl_setPairs al tag [] [] hnd (by simp)]
  rfl

/- == the generic chain lemma ============================================== -/

lemma run_chain {α : Type} (d : Nat) (toks : α → List Tok) (val : α → Element) :
    ∀ (items : List α),
    (∀ x ∈ items, ∀ (cd : Nat) (st : List Element) (p : Element) (tail : List Element),
      st.length = cd + 1 → d ≤ cd + 1 → truncTo st d = p :: tail →
      ∃ cd' st', runToks (toks x) (cd, st) = (cd', st') ∧ st'.length = cd' + 1 ∧
        d ≤ cd' ∧
        truncTo st' d = Element.mk p.tag p.attrib (p.children ++ [val x]) :: tail) →
    ∀ (cd : Nat) (st : List Element) (p : Element) (tail : List Element),
      st.length = cd + 1 → d ≤ cd + 1 → truncTo st d = p :: tail →
      ∃ cd' st', runToks ((items.map toks).flatten) (cd, st) = (cd', st') ∧
        st'.length = cd' + 1 ∧ d ≤ cd' + 1 ∧
        (items = [] → (cd', st') = (cd, st)) ∧ (items ≠ [] → d ≤ cd') ∧
        truncTo st' d = Element.mk p.tag p.attrib (p.children ++ items.map val) :: tail := by
  intro items
  induction items with
  | nil =>
    intro _ cd st p tail hlen hdc htr
    refine ⟨cd, st, rfl, hlen, hdc, fun _ => rfl, by simp, ?_⟩
    rw [htr]
    simp
  | cons x xs ih =>
    intro hitem cd st p tail hlen hdc htr
    obtain ⟨cd1, st1, hrun1, hlen1, hd1, htr1⟩ :=
      hitem x (List.mem_cons_self x xs) cd st p tail hlen hdc htr
    obtain ⟨cd2, st2, hrun2, hlen2, hd2, hnil2, hne2, htr2⟩ :=
      ih (fun y hy => hitem y (List.mem_cons_of_mem x hy)) cd1 st1
        (Element.mk p.tag p.attrib (p.children ++ [val x])) tail hlen1 (by omega) htr1
    refine ⟨cd2, st2, ?_, hlen2, hd2, by simp, fun _ => ?_, ?_⟩
    · simp only [List.map_cons, List.flatten_cons, runToks_append, hrun1, hrun2]
    · cases xs with
      | nil =>
        have := hnil2 rfl
        have hcd : cd2 = cd1 := by
          have h2 := congrArg Prod.fst this
          simpa using h2
        omega
      | cons y ys =>
        exact hne2 (by simp)
    · simp only [Element.tag_mk, Element.attrib_mk, Element.children_mk] at htr2
      rw [htr2]
      simp

/- == items of the chains ================================================== -/

lemma run_leaf_item (d : Nat) (hd : 1 ≤ d) (tag : List Nat)
    (al : List (List Nat × List PyVal)) (hnd : (al.map Prod.fst).Nodup) :
    ∀ (cd : Nat) (st : List Element) (p : Element) (tail : List Element),
      st.length = cd + 1 → d ≤ cd + 1 → truncTo st d = p :: tail →
      ∃ cd' st', runToks (Tok.obj tag d :: al.map (fun kv => Tok.prop kv.1 kv.2)) (cd, st)
          = (cd', st') ∧ st'.length = cd' + 1 ∧ d ≤ cd' ∧
        truncTo st' d
          = Element.mk p.tag p.attrib (p.children ++ [Element.mk tag al []]) :: tail := by
  intro cd st p tail hlen hdc htr
  have htl : (truncTo st d).length = d := truncTo_length hd (by omega)
  have hlen2 : (p :: tail).length = d := by rw [← htr]; exact htl
  simp only [List.length_cons] at hlen2
  refine ⟨d, Element.mk tag al [] :: truncTo st d,
    run_node d hd tag al hnd cd st hlen hdc, ?_, le_rfl, ?_⟩
  · simp [htl]
  · rw [htr]
    rw [truncTo_step (by omega)]
    rw [truncTo_of_le (by simp only [List.length_cons]; omega)]

lemma run_sub_item (d : Nat) (hd : 1 ≤ d) (ord : List (List Nat)) (hord : ord.Nodup)
    (sub : Element) (h : leafConform ord sub = true) :
    ∀ (cd : Nat) (st : List Element) (p : Element) (tail : List Element),
      st.length = cd + 1 → d ≤ cd + 1 → truncTo st d = p :: tail →
      ∃ cd' st', runToks (Tok.obj sub.tag d :: propToks ord sub) (cd, st)
          = (cd', st') ∧ st'.length = cd' + 1 ∧ d ≤ cd' ∧
        truncTo st' d = Element.mk p.tag p.attrib (p.children ++ [sub]) :: tail := by
  intro cd st p tail hlen hdc htr
  simp only [leafConform, attrsConform, Bool.and_eq_true, List.isEmpty_iff] at h
  obtain ⟨⟨hsub, _⟩, hch⟩ := h
  have hnd := isOrderedSub_keys_nodup hsub hord
  have hprop : propToks ord sub = sub.attrib.map (fun kv => Tok.prop kv.1 kv.2) := by
    have := propToks_of_orderedSub ord sub.attrib sub.tag sub.children hsub hord
    rwa [Element.eta] at this
  rw [hprop]
  obtain ⟨cd', st', h1, h2, h3, h4⟩ :=
    run_leaf_item d hd sub.tag sub.attrib hnd cd st p tail hlen hdc htr
  refine ⟨cd', st', h1, h2, h3, ?_⟩
  rw [h4]
  congr 2
  rw [← hch, Element.eta]

lemma flush_level (d : Nat) (st' : List Element) (c p : Element)
    (tail : List Element) (hd : 1 ≤ d) (hlen : d + 1 ≤ st'.length)
    (hfl : truncTo st' (d + 1) = c :: p :: tail) :
    truncTo st' d = Element.mk p.tag p.attrib (p.children ++ [c]) :: tail := by
  have hlen2 : (c :: p :: tail).length = d + 1 := by
    rw [← hfl]; exact truncTo_length (by omega) hlen
  simp only [List.length_cons] at hlen2
  rw [← truncTo_trans (show d ≤ d + 1 by omega), hfl]
  rw [truncTo_step (by omega)]
  rw [truncTo_of_le (by simp; omega)]

/- == flatten forms of the writer token streams ============================ -/

lemma bonesToks_eq : ∀ (bs : List Element),
    bonesToks bs = (bs.map (subToks bonePropOrder)).flatten := by
  intro bs
  induction bs with
  | nil => rfl
  | cons b rest ih => simp [bonesToks, ih]

lemma shapeChildrenToks_eq : ∀ (cs : List Element),
    shapeChildrenToks cs = (cs.map shapeChildToks).flatten := by
  intro cs
  induction cs with
  | nil => rfl
  | cons c rest ih => simp [shapeChildrenToks, ih]

lemma shapesToks_eq : ∀ (ss : List Element),
    shapesToks ss = (ss.map shapeToks).flatten := by
  intro ss
  induction ss with
  | nil => rfl
  | cons s rest ih => simp [shapesToks, ih]

lemma locnodesToks_eq : ∀ (ns : List Element),
    locnodesToks ns = (ns.map locnodeToks).flatten := by
  intro ns
  induction ns with
  | nil => rfl
  | cons n rest ih => simp [locnodesToks, ih]

/- == mesh children enumeration ============================================ -/

lemma meshChildren_leaf {cs : List Element} (h : meshChildrenOk cs = true) :
    ∀ sub ∈ cs, leafConform (meshSubOrderFor sub.tag) sub = true := by
  intro sub hsub
  cases cs with
  | nil => simp at hsub
  | cons a r1 =>
    cases r1 with
    | nil =>
      simp only [meshChildrenOk, Bool.and_eq_true] at h
      rcases List.mem_singleton.mp hsub with rfl
      exact h.2
    | cons b r2 =>
      cases r2 with
      | nil =>
        simp only [meshChildrenOk, Bool.and_eq_true] at h
        rcases List.mem_cons.mp hsub with rfl | hsub2
        · exact h.1.2
        · rcases List.mem_singleton.mp hsub2 with rfl
          exact h.2
      | cons c r3 =>
        cases r3 with
        | nil =>
          simp only [meshChildrenOk, Bool.and_eq_true, decide_eq_true_eq] at h
          obtain ⟨⟨⟨⟨⟨hA, hB⟩, hC⟩, hla⟩, hlb⟩, hlc⟩ := h
          rcases List.mem_cons.mp hsub with rfl | hsub2
          · rw [hA, show meshSubOrderFor strAabb = aabbPropOrder from rfl]
            exact hla
          · rcases List.mem_cons.mp hsub2 with rfl | hsub3
            · rw [hB, show meshSubOrderFor strMaterial = materialPropOrder from rfl]
              exact hlb
            · rcases List.mem_singleton.mp hsub3 with rfl
              rw [hC, show meshSubOrderFor strSkin = skinPropOrder from rfl]
              exact hlc
        | cons e r4 => simp [meshChildrenOk] at h

lemma meshSubOrderFor_nodup : ∀ t, (meshSubOrderFor t).Nodup := by
  intro t
  simp only [meshSubOrderFor]
  split
  · decide
  · split
    · decide
    · decide

/-- For conforming mesh children, the writer's three `find`-driven optional
chunks serialize the children in stored order. -/
lemma meshSubToks_eq (m : Element) (h : meshChildrenOk m.children = true) :
    aabbToks m ++ materialToks m ++ skinToks m
      = (m.children.map (fun sub => subToks (meshSubOrderFor sub.tag) sub)).flatten := by
  obtain ⟨t, al, cs⟩ := m
  simp only [Element.children_mk] at h ⊢
  simp only [aabbToks, materialToks, skinToks, Element.find, Element.children_mk]
  cases cs with
  | nil => rfl
  | cons a r1 =>
    cases r1 with
    | nil =>
      simp only [meshChildrenOk, Bool.and_eq_true, Bool.or_eq_true, decide_eq_true_eq] at h
      obtain ⟨htags, _⟩ := h
      rcases htags with (hA | hM) | hS
      · rw [show findFirst [a] strAabb = some a from by
          simp only [findFirst]; rw [if_pos hA]]
        rw [show findFirst [a] strMaterial = none from by
          simp only [findFirst]; rw [if_neg (by rw [hA]; decide)]]
        rw [show findFirst [a] strSkin = none from by
          simp only [findFirst]; rw [if_neg (by rw [hA]; decide)]]
        simp only [List.map_cons, List.map_nil, List.flatten_cons, List.flatten_nil,
          List.append_nil]
        rw [hA, show meshSubOrderFor strAabb = aabbPropOrder from rfl]
      · rw [show findFirst [a] strAabb = none from by
          simp only [findFirst]; rw [if_neg (by rw [hM]; decide)]]
        rw [show findFirst [a] strMaterial = some a from by
          simp only [findFirst]; rw [if_pos hM]]
        rw [show findFirst [a] strSkin = none from by
          simp only [findFirst]; rw [if_neg (by rw [hM]; decide)]]
        simp only [List.map_cons, List.map_nil, List.flatten_cons, List.flatten_nil,
          List.append_nil, List.nil_append]
        rw [hM, show meshSubOrderFor strMaterial = materialPropOrder from rfl]
      · rw [show findFirst [a] strAabb = none from by
          simp only [findFirst]; rw [if_neg (by rw [hS]; decide)]]
        rw [show findFirst [a] strMaterial = none from by
          simp only [findFirst]; rw [if_neg (by rw [hS]; decide)]]
        rw [show findFirst [a] strSkin = some a from by
          simp only [findFirst]; rw [if_pos hS]]
        simp only [List.map_cons, List.map_nil, List.flatten_cons, List.flatten_nil,
          List.append_nil, List.nil_append]
        rw [hS, show meshSubOrderFor strSkin = skinPropOrder from rfl]
    | cons b r2 =>
      cases r2 with
      | nil =>
        simp only [meshChildrenOk, Bool.and_eq_true, Bool.or_eq_true,
          decide_eq_true_eq] at h
        obtain ⟨⟨htags, _⟩, _⟩ := h
        rcases htags with ⟨hA, hM | hS⟩ | ⟨hM, hS⟩
        · rw [show findFirst [a, b] strAabb = some a from by
            simp only [findFirst]; rw [if_pos hA]]
          rw [show findFirst [a, b] strMaterial = some b from by
            simp only [findFirst]; rw [if_neg (by rw [hA]; decide), if_pos hM]]
          rw [show findFirst [a, b] strSkin = none from by
            simp only [findFirst]
            rw [if_neg (by rw [hA]; decide), if_neg (by rw [hM]; decide)]]
          simp only [List.map_cons, List.map_nil, List.flatten_cons, List.flatten_nil,
            List.append_nil]
          rw [hA, hM, show meshSubOrderFor strAabb = aabbPropOrder from rfl,
            show meshSubOrderFor strMaterial = materialPropOrder from rfl]
        · rw [show findFirst [a, b] strAabb = some a from by
            simp only [findFirst]; rw [if_pos hA]]
          rw [show findFirst [a, b] strMaterial = none from by
            simp only [findFirst]
            rw [if_neg (by rw [hA]; decide), if_neg (by rw [hS]; decide)]]
          rw [show findFirst [a, b] strSkin = some b from by
            simp only [findFirst]; rw [if_neg (by rw [hA]; decide), if_pos hS]]
          simp only [List.map_cons, List.map_nil, List.flatten_cons, List.flatten_nil,
            List.append_nil]
          rw [hA, hS, show meshSubOrderFor strAabb = aabbPropOrder from rfl,
            show meshSubOrderFor strSkin = skinPropOrder from rfl]
        · rw [show findFirst [a, b] strAabb = none from by
            simp only [findFirst]
            rw [if_neg (by rw [hM]; decide), if_neg (by rw [hS]; decide)]]
          rw [show findFirst [a, b] strMaterial = some a from by
            simp only [findFirst]; rw [if_pos hM]]
          rw [show findFirst [a, b] strSkin = some b from by
            simp only [findFirst]; rw [if_neg (by rw [hM]; decide), if_pos hS]]
          simp only [List.map_cons, List.map_nil, List.flatten_cons, List.flatten_nil,
            List.append_nil, List.nil_append]
          rw [hM, hS, show meshSubOrderFor strMaterial = materialPropOrder from rfl,
            show meshSubOrderFor strSkin = skinPropOrder from rfl]
      | cons c r3 =>
        cases r3 with
        | nil =>
          simp only [meshChildrenOk, Bool.and_eq_true, decide_eq_true_eq] at h
          obtain ⟨⟨⟨⟨⟨hA, hM⟩, hS⟩, _⟩, _⟩, _⟩ := h
          rw [show findFirst [a, b, c] strAabb = some a from by
            simp only [findFirst]; rw [if_pos hA]]
          rw [show findFirst [a, b, c] strMaterial = some b from by
            simp only [findFirst]; rw [if_neg (by rw [hA]; decide), if_pos hM]]
          rw [show findFirst [a, b, c] strSkin = some c from by
            simp only [findFirst]
            rw [if_neg (by rw [hA]; decide), if_neg (by rw [hM]; decide), if_pos hS]]
          simp only [List.map_cons, List.map_nil, List.flatten_cons, List.flatten_nil,
            List.append_nil]
          rw [hA, hM, hS, show meshSubOrderFor strAabb = aabbPropOrder from rfl,
            show meshSubOrderFor strMaterial = materialPropOrder from rfl,
            show meshSubOrderFor strSkin = skinPropOrder from rfl]
          simp
        | cons e r4 => simp [meshChildrenOk] at h

/-- Running the tokens of one conforming shape child (a mesh or a skeleton)
attaches the complete child to the level-2 shape on the stack. -/
lemma run_shapeChild (c : Element) (hc : shapeChildConform c = true) :
    ∀ (cd : Nat) (st : List Element) (p : Element) (tail : List Element),
      st.length = cd + 1 → 3 ≤ cd + 1 → truncTo st 3 = p :: tail →
      ∃ cd' st', runToks (shapeChildToks c) (cd, st) = (cd', st') ∧
        st'.length = cd' + 1 ∧ 3 ≤ cd' ∧
        truncTo st' 3 = Element.mk p.tag p.attrib (p.children ++ [c]) :: tail := by
  intro cd st p tail hlen hdc htr
  have htr3 : (truncTo st 3).length = 3 := truncTo_length (by omega) (by omega)
  simp only [shapeChildConform, Bool.or_eq_true, Bool.and_eq_true, decide_eq_true_eq] at hc
  rcases hc with ⟨htag, hmesh⟩ | ⟨htag, hskel⟩
  · -- mesh child
    simp only [meshConform, attrsConform, Bool.and_eq_true] at hmesh
    obtain ⟨⟨hord, _⟩, hch⟩ := hmesh
    have hsplit : shapeChildToks c
        = (Tok.obj c.tag 3 :: c.attrib.map (fun kv => Tok.prop kv.1 kv.2))
          ++ (aabbToks c ++ materialToks c ++ skinToks c) := by
      simp only [shapeChildToks, if_pos htag]
      have hp : propToks meshPropOrder c = c.attrib.map (fun kv => Tok.prop kv.1 kv.2) := by
        have := propToks_of_orderedSub meshPropOrder c.attrib c.tag c.children hord
          (by decide)
        rwa [Element.eta] at this
      rw [hp]
      simp
    rw [hsplit, runToks_append]
    have hnd := isOrderedSub_keys_nodup hord (by decide)
    rw [run_node 3 (by omega) c.tag c.attrib hnd cd st hlen hdc]
    rw [meshSubToks_eq c hch]
    have hchain := run_chain 4 (fun sub => subToks (meshSubOrderFor sub.tag) sub) id
      c.children
      (fun sub hsub => by
        exact run_sub_item 4 (by omega) (meshSubOrderFor sub.tag)
          (meshSubOrderFor_nodup sub.tag) sub (meshChildren_leaf hch sub hsub))
      3 (Element.mk c.tag c.attrib [] :: truncTo st 3)
      (Element.mk c.tag c.attrib []) (truncTo st 3)
      (by simp [htr3]) (by omega)
      (by rw [truncTo_of_le (by simp [htr3])])
    obtain ⟨cd2, st2, hrun2, hlen2, hd2, hnil2, hne2, htr2⟩ := hchain
    refine ⟨cd2, st2, hrun2, hlen2, ?_, ?_⟩
    · cases hc2 : c.children with
      | nil =>
        have := hnil2 hc2
        have hcd : cd2 = 3 := by simpa using congrArg Prod.fst this
        omega
      | cons y ys =>
        have := hne2 (by rw [hc2]; simp)
        omega
    · have hfl : truncTo st2 4
          = Element.mk c.tag c.attrib c.children :: (p :: tail) := by
        rw [htr2, htr]
        simp
      have := flush_level 3 st2 (Element.mk c.tag c.attrib c.children) p tail
        (by omega) (by omega) hfl
      rw [this, Element.eta]
  · -- skeleton child
    simp only [skeletonConform, Bool.and_eq_true, List.isEmpty_iff] at hskel
    obtain ⟨hattr, hbones⟩ := hskel
    have hsplit : shapeChildToks c
        = (Tok.obj c.tag 3 :: (([] : List (List Nat × List PyVal)).map
            (fun kv => Tok.prop kv.1 kv.2)))
          ++ bonesToks c.children := by
      simp only [shapeChildToks]
      rw [if_neg (show ¬ c.tag = strMesh from by rw [htag]; decide), if_pos htag]
      simp
    rw [hsplit, runToks_append]
    rw [run_node 3 (by omega) c.tag [] (by simp) cd st hlen hdc]
    rw [bonesToks_eq]
    have hitem : ∀ b ∈ c.children, ∀ (cd0 : Nat) (st0 : List Element) (p0 : Element)
        (tail0 : List Element), st0.length = cd0 + 1 → 4 ≤ cd0 + 1 →
        truncTo st0 4 = p0 :: tail0 →
        ∃ cd' st', runToks (subToks bonePropOrder b) (cd0, st0) = (cd', st') ∧
          st'.length = cd' + 1 ∧ 4 ≤ cd' ∧
          truncTo st' 4 = Element.mk p0.tag p0.attrib (p0.children ++ [b]) :: tail0 := by
      intro b hb
      have hbc := List.all_eq_true.mp hbones b hb
      simp only [boneConform, Bool.and_eq_true] at hbc
      exact run_sub_item 4 (by omega) bonePropOrder (by decide) b hbc.2
    have hchain := run_chain 4 (subToks bonePropOrder) id c.children hitem
      3 (Element.mk c.tag [] [] :: truncTo st 3)
      (Element.mk c.tag [] []) (truncTo st 3)
      (by simp [htr3]) (by omega)
      (by rw [truncTo_of_le (by simp [htr3])])
    obtain ⟨cd2, st2, hrun2, hlen2, hd2, hnil2, hne2, htr2⟩ := hchain
    refine ⟨cd2, st2, hrun2, hlen2, ?_, ?_⟩
    · cases hc2 : c.children with
      | nil =>
        have := hnil2 hc2
        have hcd : cd2 = 3 := by simpa using congrArg Prod.fst this
        omega
      | cons y ys =>
        have := hne2 (by rw [hc2]; simp)
        omega
    · have hfl : truncTo st2 4
          = Element.mk c.tag [] c.children :: (p :: tail) := by
        rw [htr2, htr]
        simp
      have := flush_level 3 st2 (Element.mk c.tag [] c.children) p tail
        (by omega) (by omega) hfl
      rw [this, ← hattr, Element.eta]

/-- Running the tokens of one conforming shape attaches the complete shape to
the level-1 `object` node on the stack. -/
lemma run_shape (s : Element) (hs : shapeConform s = true) :
    ∀ (cd : Nat) (st : List Element) (p : Element) (tail : List Element),
      st.length = cd + 1 → 2 ≤ cd + 1 → truncTo st 2 = p :: tail →
      ∃ cd' st', runToks (shapeToks s) (cd, st) = (cd', st') ∧
        st'.length = cd' + 1 ∧ 2 ≤ cd' ∧
        truncTo st' 2 = Element.mk p.tag p.attrib (p.children ++ [s]) :: tail := by
  intro cd st p tail hlen hdc htr
  have htr2 : (truncTo st 2).length = 2 := truncTo_length (by omega) (by omega)
  simp only [shapeConform, attrsConform, Bool.and_eq_true] at hs
  obtain ⟨⟨_, hord, _⟩, hch⟩ := hs
  have hsplit : shapeToks s
      = (Tok.obj s.tag 2 :: s.attrib.map (fun kv => Tok.prop kv.1 kv.2))
        ++ shapeChildrenToks s.children := by
    simp only [shapeToks]
    have hp : propToks shapePropOrder s = s.attrib.map (fun kv => Tok.prop kv.1 kv.2) := by
      have := propToks_of_orderedSub shapePropOrder s.attrib s.tag s.children hord
        (by decide)
      rwa [Element.eta] at this
    rw [hp]
    simp
  rw [hsplit, runToks_append]
  have hnd := isOrderedSub_keys_nodup hord (by decide)
  rw [run_node 2 (by omega) s.tag s.attrib hnd cd st hlen hdc]
  rw [shapeChildrenToks_eq]
  have hchain := run_chain 3 shapeChildToks id s.children
    (fun c hc => by
      exact run_shapeChild c (List.all_eq_true.mp hch c hc))
    2 (Element.mk s.tag s.attrib [] :: truncTo st 2)
    (Element.mk s.tag s.attrib []) (truncTo st 2)
    (by simp [htr2]) (by omega)
    (by rw [truncTo_of_le (by simp [htr2])])
  obtain ⟨cd2, st2, hrun2, hlen2, hd2, hnil2, hne2, htr2b⟩ := hchain
  refine ⟨cd2, st2, hrun2, hlen2, ?_, ?_⟩
  · cases hc2 : s.children with
    | nil =>
      have := hnil2 hc2
      have hcd : cd2 = 2 := by simpa using congrArg Prod.fst this
      omega
    | cons y ys =>
      have := hne2 (by rw [hc2]; simp)
      omega
  · have hfl : truncTo st2 3
        = Element.mk s.tag s.attrib s.children :: (p :: tail) := by
      rw [htr2b, htr]
      simp
    have := flush_level 2 st2 (Element.mk s.tag s.attrib s.children) p tail
      (by omega) (by omega) hfl
    rw [this, Element.eta]

/-- Running a depth-1 section (`object` + its shapes, or `locator` + its
nodes) attaches the finished section under the root. -/
lemma run_section {α : Type} (tag1 : List Nat) (toks : α → List Tok) (val : α → Element)
    (items : List α)
    (hitem : ∀ x ∈ items, ∀ (cd : Nat) (st : List Element) (p : Element)
      (tail : List Element), st.length = cd + 1 → 2 ≤ cd + 1 → truncTo st 2 = p :: tail →
      ∃ cd' st', runToks (toks x) (cd, st) = (cd', st') ∧ st'.length = cd' + 1 ∧
        2 ≤ cd' ∧
        truncTo st' 2 = Element.mk p.tag p.attrib (p.children ++ [val x]) :: tail) :
    ∀ (cd : Nat) (st : List Element) (F : Element),
      st.length = cd + 1 → truncTo st 1 = [F] →
      ∃ cd' st', runToks (Tok.obj tag1 1 :: (items.map toks).flatten) (cd, st)
          = (cd', st') ∧ st'.length = cd' + 1 ∧ 1 ≤ cd' ∧
        truncTo st' 1
          = [Element.mk F.tag F.attrib (F.children ++ [Element.mk tag1 [] (items.map val)])] := by
  intro cd st F hlen htr
  have hrun1 : runToks [Tok.obj tag1 1] (cd, st)
      = (1, Element.mk tag1 [] [] :: truncTo st 1) :=
    run_node 1 (by omega) tag1 [] (by simp) cd st hlen (by omega)
  have hsplit : Tok.obj tag1 1 :: (items.map toks).flatten
      = [Tok.obj tag1 1] ++ (items.map toks).flatten := rfl
  rw [hsplit, runToks_append, hrun1, htr]
  have hchain := run_chain 2 toks val items hitem 1
    (Element.mk tag1 [] [] :: [F]) (Element.mk tag1 [] []) [F]
    (by simp) (by omega)
    (by rw [truncTo_of_le (by simp)])
  obtain ⟨cd2, st2, hrun2, hlen2, hd2, hnil2, hne2, htr2⟩ := hchain
  refine ⟨cd2, st2, hrun2, hlen2, ?_, ?_⟩
  · cases hc2 : items with
    | nil =>
      have := hnil2 hc2
      have hcd : cd2 = 1 := by simpa using congrArg Prod.fst this
      omega
    | cons y ys =>
      have := hne2 (by rw [hc2]; simp)
      omega
  · have hfl : truncTo st2 2
        = Element.mk tag1 [] (items.map val) :: (F :: []) := by
      rw [htr2]
      simp
    have := flush_level 1 st2 (Element.mk tag1 [] (items.map val)) F []
      (by omega) (by omega) hfl
    rw [this]

lemma run_locnode_item (n : Element) (hn : locnodeConform n = true) :
    ∀ (cd : Nat) (st : List Element) (p : Element) (tail : List Element),
      st.length = cd + 1 → 2 ≤ cd + 1 → truncTo st 2 = p :: tail →
      ∃ cd' st', runToks (locnodeToks n) (cd, st) = (cd', st') ∧
        st'.length = cd' + 1 ∧ 2 ≤ cd' ∧
        truncTo st' 2 = Element.mk p.tag p.attrib (p.children ++ [n]) :: tail := by
  simp only [locnodeConform, Bool.and_eq_true] at hn
  intro cd st p tail hlen hdc htr
  exact run_sub_item 2 (by omega) locnodePropOrder (by decide) n hn.2 cd st p tail
    hlen hdc htr

/-- Replaying the full token stream the writer emits for a conforming tree
rebuilds exactly that tree. -/
lemma collapse_fileToks (t : Element) (h : Conforms t = true) :
    collapseStack (runToks (fileToks t) (0, [fileRoot])).2 = t := by
  obtain ⟨tag, al, ch⟩ := t
  simp only [Conforms, Element.tag_mk, Element.attrib_mk, Element.children_mk,
    Bool.and_eq_true, decide_eq_true_eq] at h
  obtain ⟨⟨htag, hal⟩, hch⟩ := h
  subst htag
  revert hal
  cases al with
  | nil => intro hal; simp at hal
  | cons kv rest =>
    cases rest with
    | cons kv2 rest2 => intro hal; simp at hal
    | nil =>
      cases kv with
      | mk k v =>
        intro hal
        simp only [Bool.and_eq_true, decide_eq_true_eq] at hal
        obtain ⟨hk, _⟩ := hal
        subst hk
        have hget : Element.get (Element.mk strFile [(strPdxasset, v)] ch) strPdxasset
            = some v := rfl
        have hprop : runToks [Tok.prop strPdxasset v] (0, [fileRoot])
            = (0, [Element.mk strFile [(strPdxasset, v)] []]) := rfl
        revert hch
        cases ch with
        | nil =>
          intro _
          rfl
        | cons a r1 =>
          cases r1 with
          | nil =>
            intro hch
            simp only [Bool.or_eq_true, Bool.and_eq_true, decide_eq_true_eq] at hch
            rcases hch with ⟨hao, hoc⟩ | ⟨hal2, hlc⟩
            · -- a lone object section
              simp only [objectConform, Bool.and_eq_true, List.isEmpty_iff] at hoc
              obtain ⟨hattr, hshapes⟩ := hoc
              have htoks : fileToks (Element.mk strFile [(strPdxasset, v)] [a])
                  = [Tok.prop strPdxasset v]
                    ++ ((Tok.obj a.tag 1 :: shapesToks a.children) ++ []) := by
                simp only [fileToks, hget, Element.find, Element.children_mk]
                rw [show findFirst [a] strObject = some a from by
                  simp only [findFirst]; rw [if_pos hao]]
                rw [show findFirst [a] strLocator = none from by
                  simp only [findFirst]; rw [if_neg (by rw [hao]; decide)]]
                rfl
              rw [htoks, List.append_nil, runToks_append, hprop, shapesToks_eq]
              have hsec := run_section a.tag shapeToks id a.children
                (fun s hs => by
                  exact run_shape s (List.all_eq_true.mp hshapes s hs))
                0 [Element.mk strFile [(strPdxasset, v)] []]
                (Element.mk strFile [(strPdxasset, v)] []) rfl rfl
              obtain ⟨cd1, st1, hrun1, _, _, htr1⟩ := hsec
              rw [hrun1]
              simp only [collapseStack, htr1]
              simp only [Element.tag_mk, Element.attrib_mk, Element.children_mk,
                List.map_id, List.nil_append]
              rw [show Element.mk a.tag [] a.children = a from by rw [← hattr]; exact Element.eta a]
            · -- a lone locator section
              simp only [locatorConform, Bool.and_eq_true, List.isEmpty_iff] at hlc
              obtain ⟨hattr, hnodes⟩ := hlc
              have htoks : fileToks (Element.mk strFile [(strPdxasset, v)] [a])
                  = [Tok.prop strPdxasset v]
                    ++ ([] ++ (Tok.obj a.tag 1 :: locnodesToks a.children)) := by
                simp only [fileToks, hget, Element.find, Element.children_mk]
                rw [show findFirst [a] strObject = none from by
                  simp only [findFirst]; rw [if_neg (by rw [hal2]; decide)]]
                rw [show findFirst [a] strLocator = some a from by
                  simp only [findFirst]; rw [if_pos hal2]]
                rfl
              rw [htoks, List.nil_append, runToks_append, hprop, locnodesToks_eq]
              have hsec := run_section a.tag locnodeToks id a.children
                (fun n hn => by
                  exact run_locnode_item n (List.all_eq_true.mp hnodes n hn))
                0 [Element.mk strFile [(strPdxasset, v)] []]
                (Element.mk strFile [(strPdxasset, v)] []) rfl rfl
              obtain ⟨cd1, st1, hrun1, _, _, htr1⟩ := hsec
              rw [hrun1]
              simp only [collapseStack, htr1]
              simp only [Element.tag_mk, Element.attrib_mk, Element.children_mk,
                List.map_id, List.nil_append]
              rw [show Element.mk a.tag [] a.children = a from by rw [← hattr]; exact Element.eta a]
          | cons b r2 =>
            cases r2 with
            | cons c r3 => intro hch; simp at hch
            | nil =>
              intro hch
              simp only [Bool.and_eq_true, decide_eq_true_eq] at hch
              obtain ⟨⟨⟨hao, hoc⟩, hbl⟩, hlc⟩ := hch
              simp only [objectConform, Bool.and_eq_true, List.isEmpty_iff] at hoc
              obtain ⟨hattrA, hshapes⟩ := hoc
              simp only [locatorConform, Bool.and_eq_true, List.isEmpty_iff] at hlc
              obtain ⟨hattrB, hnodes⟩ := hlc
              have htoks : fileToks (Element.mk strFile [(strPdxasset, v)] [a, b])
                  = [Tok.prop strPdxasset v]
                    ++ ((Tok.obj a.tag 1 :: shapesToks a.children)
                      ++ (Tok.obj b.tag 1 :: locnodesToks b.children)) := by
                simp only [fileToks, hget, Element.find, Element.children_mk]
                rw [show findFirst [a, b] strObject = some a from by
                  simp only [findFirst]; rw [if_pos hao]]
                rw [show findFirst [a, b] strLocator = some b from by
                  simp only [findFirst]; rw [if_neg (by rw [hao]; decide), if_pos hbl]]
                rfl
              rw [htoks, runToks_append, runToks_append, hprop, shapesToks_eq,
                locnodesToks_eq]
              have hsec1 := run_section a.tag shapeToks id a.children
                (fun s hs => by
                  exact run_shape s (List.all_eq_true.mp hshapes s hs))
                0 [Element.mk strFile [(strPdxasset, v)] []]
                (Element.mk strFile [(strPdxasset, v)] []) rfl rfl
              obtain ⟨cd1, st1, hrun1, hlen1, hcd1, htr1⟩ := hsec1
              rw [hrun1]
              have hsec2 := run_section b.tag locnodeToks id b.children
                (fun n hn => by
                  exact run_locnode_item n (List.all_eq_true.mp hnodes n hn))
                cd1 st1
                (Element.mk strFile [(strPdxasset, v)]
                  ([] ++ [Element.mk a.tag [] (a.children.map id)]))
                hlen1 (by rw [htr1]; rfl)
              obtain ⟨cd2, st2, hrun2, _, _, htr2⟩ := hsec2
              rw [hrun2]
              simp only [collapseStack, htr2]
              simp only [Element.tag_mk, Element.attrib_mk, Element.children_mk,
                List.map_id, List.nil_append]
              rw [show Element.mk a.tag [] a.children = a from by
                rw [← hattrA]; exact Element.eta a]
              rw [show Element.mk b.tag [] b.children = b from by
                rw [← hattrB]; exact Element.eta b]
              rfl

/- == the writer emits exactly the serialized token stream ================== -/

lemma lookupA_mem : ∀ (al : List (List Nat × List PyVal)) (k : List Nat)
    (v : List PyVal), lookupA al k = some v → (k, v) ∈ al := by
  intro al
  induction al with
  | nil => intro k v h; simp [lookupA] at h
  | cons kv rest ih =>
    intro k v h
    cases kv with
    | mk k' v' =>
      simp only [lookupA] at h
      by_cases hk : k' = k
      · rw [if_pos hk] at h
        subst hk
        cases h
        exact List.mem_cons_self _ _
      · rw [if_neg hk] at h
        exact List.mem_cons_of_mem _ (ih k v h)

lemma findFirst_spec : ∀ (ch : List Element) (t : List Nat) (a : Element),
    findFirst ch t = some a → a ∈ ch ∧ a.tag = t := by
  intro ch
  induction ch with
  | nil => intro t a h; simp [findFirst] at h
  | cons c rest ih =>
    intro t a h
    simp only [findFirst] at h
    by_cases hc : c.tag = t
    · rw [if_pos hc] at h
      cases h
      exact ⟨List.mem_cons_self _ _, hc⟩
    · rw [if_neg hc] at h
      obtain ⟨hm, ht⟩ := ih t a h
      exact ⟨List.mem_cons_of_mem _ hm, ht⟩

lemma attrib_get_valid (e : Element)
    (h : e.attrib.all (fun kv => validArr kv.2) = true) :
    ∀ p v, Element.get e p = some v → validArr v = true := by
  intro p v hget
  exact List.all_eq_true.mp h (p, v) (lookupA_mem e.attrib p v hget)

lemma dedup_const (a : Nat) : ∀ (l : List Nat),
    l.all (fun x => decide (x = a)) = true → l ≠ [] → l.dedup = [a] := by
  intro l
  induction l with
  | nil => intro _ hne; exact absurd rfl hne
  | cons b rest ih =>
    intro h _
    simp only [List.all_cons, Bool.and_eq_true, decide_eq_true_eq] at h
    obtain ⟨hb, hrest⟩ := h
    subst hb
    cases rest with
    | nil => simp [List.dedup]
    | cons c r2 =>
      have hc : c = b := by
        have := List.all_eq_true.mp hrest c (List.mem_cons_self c r2)
        exact of_decide_eq_true this
      have hmem : b ∈ c :: r2 := by rw [hc]; exact List.mem_cons_self b r2
      rw [List.dedup_cons_of_mem hmem]
      exact ih hrest (by simp)

lemma types_int (ns : List Int) :
    ((ns.map PyVal.int).map pyTypeTag).all (fun x => decide (x = 0)) = true := by
  induction ns with
  | nil => rfl
  | cons n rest ih => simpa [pyTypeTag] using ih

lemma types_float (bs : List Nat) :
    ((bs.map PyVal.float).map pyTypeTag).all (fun x => decide (x = 1)) = true := by
  induction bs with
  | nil => rfl
  | cons b rest ih => simpa [pyTypeTag] using ih

lemma writeString_of_latin1 (s : List Nat) (h : ∀ c ∈ s, c < 256) :
    writeString s = .ok s := by
  simp only [writeString]
  rw [if_pos (List.all_eq_true.mpr (fun c hc => decide_eq_true (h c hc)))]

/-- On a `validArr` array `writeData` succeeds and returns the reference
serialization `serData`. -/
lemma writeData_valid (l : List PyVal) (h : validArr l = true) :
    writeData l = .ok (serData l) := by
  rcases validArr_cases h with ⟨ns, rfl, hne, hlen, hrange⟩ |
    ⟨bs, rfl, hne, hlen, hrange⟩ | ⟨s, rfl, hs, hslen⟩
  · have hne' : ns.map PyVal.int ≠ [] := by
      cases ns with
      | nil => exact absurd rfl hne
      | cons n r => simp
    have htypes : ((ns.map PyVal.int).map pyTypeTag).dedup = [0] :=
      dedup_const 0 _ (types_int ns) (by simpa using hne')
    simp only [writeData, htypes]
    rw [if_pos (by decide)]
    rw [if_pos (all_isIntV_map ns)]
    have hcond : (decide ((ns.map PyVal.int).length < 2147483648) &&
        (ns.map PyVal.int).all
          (fun v => match v with | .int n => inI32 n | _ => true)) = true := by
      rw [Bool.and_eq_true]
      refine ⟨?_, ?_⟩
      · simp only [List.length_map, decide_eq_true_eq]; exact hlen
      · rw [List.all_eq_true]
        intro v hv
        rcases List.mem_map.mp hv with ⟨n, hn, rfl⟩
        simp only [inI32, Bool.and_eq_true, decide_eq_true_eq]
        exact ⟨(hrange n hn).1, (hrange n hn).2⟩
    rw [if_pos hcond, serData_int]
    simp [List.map_map, Function.comp_def]
  · have hne' : bs.map PyVal.float ≠ [] := by
      cases bs with
      | nil => exact absurd rfl hne
      | cons b r => simp
    have htypes : ((bs.map PyVal.float).map pyTypeTag).dedup = [1] :=
      dedup_const 1 _ (types_float bs) (by simpa using hne')
    simp only [writeData, htypes]
    rw [if_pos (by decide)]
    rw [if_neg (by
      intro hfalse
      cases bs with
      | nil => exact hne rfl
      | cons b r => simp [isIntV] at hfalse)]
    rw [if_pos (all_isFloatV_map bs)]
    rw [if_pos (by simp only [List.length_map, decide_eq_true_eq]; exact hlen)]
    rw [serData_float bs hne]
    rw [serfloat_payload bs]
    simp only [List.length_map]
  · have htypes : (([PyVal.str s]).map pyTypeTag).dedup = [2] := by
      simp [pyTypeTag, List.dedup]
    simp only [writeData, htypes]
    rw [if_pos (by decide)]
    rw [if_neg (by simp [isIntV])]
    rw [if_neg (by simp [isFloatV])]
    rw [if_pos (by simp [isStrV])]
    rw [if_pos (by simp only [decide_eq_true_eq]; exact hslen)]
    rw [writeString_of_latin1 s hs]
    simp only [exceptBind_ok, serData_str]

/-- On a valid name and a valid array `writeProperty` succeeds with the
serialized property token. -/
lemma writeProperty_valid (nm : List Nat) (vs : List PyVal)
    (hnm : validPropName nm = true) (hvs : validArr vs = true) :
    writeProperty nm vs = .ok (serTok (Tok.prop nm vs)) := by
  simp only [validPropName, Bool.and_eq_true, decide_eq_true_eq] at hnm
  obtain ⟨⟨⟨_, hle⟩, hlat⟩, _⟩ := hnm
  simp only [writeProperty]
  rw [if_pos hle]
  rw [writeString_of_latin1 nm
    (fun c hc => of_decide_eq_true (List.all_eq_true.mp hlat c hc))]
  rw [writeData_valid vs hvs]
  simp only [exceptBind_ok]
  rfl

/-- On a valid tag `writeObject` succeeds with the serialized object token. -/
lemma writeObject_valid (t : Element) (d : Nat) (h : validTag t.tag = true) :
    writeObject t d = .ok (serTok (Tok.obj t.tag d)) := by
  simp only [validTag, Bool.and_eq_true, decide_eq_true_eq] at h
  obtain ⟨⟨hlen, hall⟩, _⟩ := h
  simp only [writeObject]
  rw [if_pos hlen]
  rw [writeString_of_latin1 t.tag (fun c hc => by
    have := List.all_eq_true.mp hall c hc
    simp only [Bool.and_eq_true, decide_eq_true_eq] at this
    exact this.1)]
  simp only [exceptBind_ok]
  rfl

/-- The property loop of the writer emits exactly the serialized `propToks`
stream. -/
lemma writeProps_ser : ∀ (ord : List (List Nat)) (e : Element),
    (∀ p ∈ ord, validPropName p = true) →
    (∀ p v, Element.get e p = some v → validArr v = true) →
    writeProps ord e = .ok (serToksBytes (propToks ord e)) := by
  intro ord
  induction ord with
  | nil => intro e _ _; rfl
  | cons p rest ih =>
    intro e hord hvals
    simp only [writeProps, propToks]
    cases hget : Element.get e p with
    | none =>
      simp only [exceptBind_ok]
      rw [ih e (fun q hq => hord q (List.mem_cons_of_mem p hq)) hvals]
      simp only [exceptBind_ok, List.nil_append]
    | some v =>
      simp only [writeProperty_valid p v (hord p (List.mem_cons_self p rest))
          (hvals p v hget),
        ih e (fun q hq => hord q (List.mem_cons_of_mem p hq)) hvals,
        exceptBind_ok, serToksBytes]

lemma writeAabbChunk_ser (m : Element)
    (hleaf : ∀ a, Element.find m strAabb = some a →
      leafConform aabbPropOrder a = true) :
    writeAabbChunk m = .ok (serToksBytes (aabbToks m)) := by
  simp only [writeAabbChunk, aabbToks]
  cases hf : Element.find m strAabb with
  | none => rfl
  | some a =>
    have hl := hleaf a hf
    have htag : a.tag = strAabb := (findFirst_spec m.children strAabb a hf).2
    simp only [leafConform, attrsConform, Bool.and_eq_true] at hl
    obtain ⟨⟨_, hvals⟩, _⟩ := hl
    simp only [writeObject_valid a 4 (by rw [htag]; decide),
      writeProps_ser aabbPropOrder a (by decide) (attrib_get_valid a hvals),
      exceptBind_ok, subToks, serToksBytes]

lemma writeMaterialChunk_ser (m : Element)
    (hleaf : ∀ a, Element.find m strMaterial = some a →
      leafConform materialPropOrder a = true) :
    writeMaterialChunk m = .ok (serToksBytes (materialToks m)) := by
  simp only [writeMaterialChunk, materialToks]
  cases hf : Element.find m strMaterial with
  | none => rfl
  | some a =>
    have hl := hleaf a hf
    have htag : a.tag = strMaterial := (findFirst_spec m.children strMaterial a hf).2
    simp only [leafConform, attrsConform, Bool.and_eq_true] at hl
    obtain ⟨⟨_, hvals⟩, _⟩ := hl
    simp only [writeObject_valid a 4 (by rw [htag]; decide),
      writeProps_ser materialPropOrder a (by decide) (attrib_get_valid a hvals),
      exceptBind_ok, subToks, serToksBytes]

lemma writeSkinChunk_ser (m : Element)
    (hleaf : ∀ a, Element.find m strSkin = some a →
      leafConform skinPropOrder a = true) :
    writeSkinChunk m = .ok (serToksBytes (skinToks m)) := by
  simp only [writeSkinChunk, skinToks]
  cases hf : Element.find m strSkin with
  | none => rfl
  | some a =>
    have hl := hleaf a hf
    have htag : a.tag = strSkin := (findFirst_spec m.children strSkin a hf).2
    simp only [leafConform, attrsConform, Bool.and_eq_true] at hl
    obtain ⟨⟨_, hvals⟩, _⟩ := hl
    simp only [writeObject_valid a 4 (by rw [htag]; decide),
      writeProps_ser skinPropOrder a (by decide) (attrib_get_valid a hvals),
      exceptBind_ok, subToks, serToksBytes]

lemma writeBones_ser : ∀ (bs : List Element), (∀ b ∈ bs, boneConform b = true) →
    writeBones bs = .ok (serToksBytes (bonesToks bs)) := by
  intro bs
  induction bs with
  | nil => intro _; rfl
  | cons b rest ih =>
    intro h
    have hb := h b (List.mem_cons_self b rest)
    simp only [boneConform, leafConform, attrsConform, Bool.and_eq_true] at hb
    obtain ⟨htag, ⟨_, hvals⟩, _⟩ := hb
    simp only [writeBones, bonesToks]
    rw [writeObject_valid b 4 htag]
    rw [writeProps_ser bonePropOrder b (by decide) (attrib_get_valid b hvals)]
    rw [ih (fun x hx => h x (List.mem_cons_of_mem b hx))]
    simp only [exceptBind_ok, List.append_eq, serToksBytes_append, subToks,
      serToksBytes, List.append_assoc]

lemma writeShapeChild_ser (c : Element) (h : shapeChildConform c = true) :
    writeShapeChild c = .ok (serToksBytes (shapeChildToks c)) := by
  simp only [shapeChildConform, Bool.or_eq_true, Bool.and_eq_true,
    decide_eq_true_eq] at h
  rcases h with ⟨htag, hm⟩ | ⟨htag, hk⟩
  · simp only [meshConform, attrsConform, Bool.and_eq_true] at hm
    obtain ⟨⟨hord, hvals⟩, hch⟩ := hm
    simp only [writeShapeChild, shapeChildToks]
    rw [writeObject_valid c 3 (by rw [htag]; decide)]
    simp only [exceptBind_ok, if_pos htag]
    rw [writeProps_ser meshPropOrder c (by decide) (attrib_get_valid c hvals)]
    rw [writeAabbChunk_ser c (fun a hf => by
      have hsp := findFirst_spec c.children strAabb a hf
      have hlf := meshChildren_leaf hch a hsp.1
      rw [hsp.2] at hlf
      exact hlf)]
    rw [writeMaterialChunk_ser c (fun a hf => by
      have hsp := findFirst_spec c.children strMaterial a hf
      have hlf := meshChildren_leaf hch a hsp.1
      rw [hsp.2] at hlf
      exact hlf)]
    rw [writeSkinChunk_ser c (fun a hf => by
      have hsp := findFirst_spec c.children strSkin a hf
      have hlf := meshChildren_leaf hch a hsp.1
      rw [hsp.2] at hlf
      exact hlf)]
    simp only [exceptBind_ok, List.append_eq, serToksBytes, serToksBytes_append,
      List.append_assoc]
  · simp only [skeletonConform, Bool.and_eq_true] at hk
    obtain ⟨_, hbones⟩ := hk
    simp only [writeShapeChild, shapeChildToks]
    rw [writeObject_valid c 3 (by rw [htag]; decide)]
    have hnm : ¬ (c.tag = strMesh) := by rw [htag]; decide
    simp only [exceptBind_ok, if_neg hnm, if_pos htag]
    rw [writeBones_ser c.children (fun b hb => List.all_eq_true.mp hbones b hb)]
    simp only [exceptBind_ok, serToksBytes]

lemma writeShapeChildren_ser : ∀ (cs : List Element),
    (∀ c ∈ cs, shapeChildConform c = true) →
    writeShapeChildren cs = .ok (serToksBytes (shapeChildrenToks cs)) := by
  intro cs
  induction cs with
  | nil => intro _; rfl
  | cons c rest ih =>
    intro h
    simp only [writeShapeChildren, shapeChildrenToks]
    rw [writeShapeChild_ser c (h c (List.mem_cons_self c rest))]
    rw [ih (fun x hx => h x (List.mem_cons_of_mem c hx))]
    simp only [exceptBind_ok, List.append_eq, serToksBytes_append]

lemma writeShape_ser (s : Element) (h : shapeConform s = true) :
    writeShape s = .ok (serToksBytes (shapeToks s)) := by
  simp only [shapeConform, attrsConform, Bool.and_eq_true] at h
  obtain ⟨⟨htag, _, hvals⟩, hch⟩ := h
  simp only [writeShape, shapeToks]
  rw [writeObject_valid s 2 htag]
  rw [writeProps_ser shapePropOrder s (by decide) (attrib_get_valid s hvals)]
  rw [writeShapeChildren_ser s.children (fun c hc => List.all_eq_true.mp hch c hc)]
  simp only [exceptBind_ok, List.append_eq, serToksBytes, serToksBytes_append,
    List.append_assoc]

lemma writeShapes_ser : ∀ (ss : List Element), (∀ s ∈ ss, shapeConform s = true) →
    writeShapes ss = .ok (serToksBytes (shapesToks ss)) := by
  intro ss
  induction ss with
  | nil => intro _; rfl
  | cons s rest ih =>
    intro h
    simp only [writeShapes, shapesToks]
    rw [writeShape_ser s (h s (List.mem_cons_self s rest))]
    rw [ih (fun x hx => h x (List.mem_cons_of_mem s hx))]
    simp only [exceptBind_ok, List.append_eq, serToksBytes_append]

lemma writeLocnode_ser (n : Element) (h : locnodeConform n = true) :
    writeLocnode n = .ok (serToksBytes (locnodeToks n)) := by
  simp only [locnodeConform, leafConform, attrsConform, Bool.and_eq_true] at h
  obtain ⟨htag, ⟨_, hvals⟩, _⟩ := h
  simp only [writeLocnode, locnodeToks]
  rw [writeObject_valid n 2 htag]
  rw [writeProps_ser locnodePropOrder n (by decide) (attrib_get_valid n hvals)]
  simp only [exceptBind_ok, serToksBytes]

lemma writeLocnodes_ser : ∀ (ns : List Element), (∀ n ∈ ns, locnodeConform n = true) →
    writeLocnodes ns = .ok (serToksBytes (locnodesToks ns)) := by
  intro ns
  induction ns with
  | nil => intro _; rfl
  | cons n rest ih =>
    intro h
    simp only [writeLocnodes, locnodesToks]
    rw [writeLocnode_ser n (h n (List.mem_cons_self n rest))]
    rw [ih (fun x hx => h x (List.mem_cons_of_mem n hx))]
    simp only [exceptBind_ok, List.append_eq, serToksBytes_append]

/-- On a schema-conforming tree the writer succeeds and its byte output is
the magic header followed by the serialized token stream. -/
lemma write_meshfile_ser (t : Element) (h : Conforms t = true) :
    write_meshfile t = .ok (writeBytes t) := by
  obtain ⟨tag, al, ch⟩ := t
  simp only [Conforms, Element.tag_mk, Element.attrib_mk, Element.children_mk,
    Bool.and_eq_true, decide_eq_true_eq] at h
  obtain ⟨⟨htag, hal⟩, hch⟩ := h
  subst htag
  revert hal
  cases al with
  | nil => intro hal; simp at hal
  | cons kv rest =>
    cases rest with
    | cons kv2 rest2 => intro hal; simp at hal
    | nil =>
      cases kv with
      | mk k v =>
        intro hal
        simp only [Bool.and_eq_true, decide_eq_true_eq] at hal
        obtain ⟨hk, hv⟩ := hal
        subst hk
        have hget : Element.get (Element.mk strFile [(strPdxasset, v)] ch) strPdxasset
            = some v := rfl
        have hpdx := writeProperty_valid strPdxasset v (by decide) hv
        revert hch
        cases ch with
        | nil =>
          intro _
          simp only [write_meshfile, writeBytes, fileToks, hget, Element.tag_mk]
          rw [if_pos trivial, hpdx]
          simp only [exceptBind_ok, Element.find, Element.children_mk, findFirst]
          simp only [serToksBytes, serToksBytes_append, List.append_nil]
        | cons a r1 =>
          cases r1 with
          | nil =>
            intro hch
            simp only [Bool.or_eq_true, Bool.and_eq_true, decide_eq_true_eq] at hch
            rcases hch with ⟨hao, hoc⟩ | ⟨hal2, hlc⟩
            · simp only [objectConform, Bool.and_eq_true, List.isEmpty_iff] at hoc
              obtain ⟨hattr, hshapes⟩ := hoc
              simp only [write_meshfile, writeBytes, fileToks, hget, Element.tag_mk]
              rw [if_pos trivial, hpdx]
              simp only [exceptBind_ok, Element.find, Element.children_mk]
              rw [show findFirst [a] strObject = some a from by
                simp only [findFirst]; rw [if_pos hao]]
              rw [show findFirst [a] strLocator = none from by
                simp only [findFirst]; rw [if_neg (by rw [hao]; decide)]]
              simp only [writeObject_valid a 1 (by rw [hao]; decide),
                writeShapes_ser a.children
                  (fun s hs => List.all_eq_true.mp hshapes s hs),
                exceptBind_ok, List.append_eq, serToksBytes,
                serToksBytes_append, List.append_nil, List.append_assoc]
            · simp only [locatorConform, Bool.and_eq_true, List.isEmpty_iff] at hlc
              obtain ⟨hattr, hnodes⟩ := hlc
              simp only [write_meshfile, writeBytes, fileToks, hget, Element.tag_mk]
              rw [if_pos trivial, hpdx]
              simp only [exceptBind_ok, Element.find, Element.children_mk]
              rw [show findFirst [a] strObject = none from by
                simp only [findFirst]; rw [if_neg (by rw [hal2]; decide)]]
              rw [show findFirst [a] strLocator = some a from by
                simp only [findFirst]; rw [if_pos hal2]]
              simp only [writeObject_valid a 1 (by rw [hal2]; decide),
                writeLocnodes_ser a.children
                  (fun n hn => List.all_eq_true.mp hnodes n hn),
                exceptBind_ok, List.append_eq, serToksBytes,
                serToksBytes_append, List.nil_append, List.append_assoc]
          | cons b r2 =>
            cases r2 with
            | cons c r3 => intro hch; simp at hch
            | nil =>
              intro hch
              simp only [Bool.and_eq_true, decide_eq_true_eq] at hch
              obtain ⟨⟨⟨hao, hoc⟩, hbl⟩, hlc⟩ := hch
              simp only [objectConform, Bool.and_eq_true, List.isEmpty_iff] at hoc
              obtain ⟨hattrA, hshapes⟩ := hoc
              simp only [locatorConform, Bool.and_eq_true, List.isEmpty_iff] at hlc
              obtain ⟨hattrB, hnodes⟩ := hlc
              simp only [write_meshfile, writeBytes, fileToks, hget, Element.tag_mk]
              rw [if_pos trivial, hpdx]
              simp only [exceptBind_ok, Element.find, Element.children_mk]
              rw [show findFirst [a, b] strObject = some a from by
                simp only [findFirst]; rw [if_pos hao]]
              rw [show findFirst [a, b] strLocator = some b from by
                simp only [findFirst]; rw [if_neg (by rw [hao]; decide), if_pos hbl]]
              simp only [writeObject_valid a 1 (by rw [hao]; decide),
                writeShapes_ser a.children
                  (fun s hs => List.all_eq_true.mp hshapes s hs),
                writeObject_valid b 1 (by rw [hbl]; decide),
                writeLocnodes_ser b.children
                  (fun n hn => List.all_eq_true.mp hnodes n hn),
                exceptBind_ok, List.append_eq, serToksBytes,
                serToksBytes_append, List.append_assoc]

/- == validity of the emitted token stream ================================== -/

lemma propToks_valid : ∀ (ord : List (List Nat)) (e : Element),
    (∀ p ∈ ord, validPropName p = true) →
    (∀ p v, Element.get e p = some v → validArr v = true) →
    ∀ tok ∈ propToks ord e, validTok tok = true := by
  intro ord
  induction ord with
  | nil => intro e _ _ tok htok; simp [propToks] at htok
  | cons p rest ih =>
    intro e hord hvals tok htok
    simp only [propToks] at htok
    cases hget : Element.get e p with
    | none =>
      rw [hget] at htok
      exact ih e (fun q hq => hord q (List.mem_cons_of_mem p hq)) hvals tok htok
    | some v =>
      rw [hget] at htok
      rcases List.mem_cons.mp htok with rfl | hmem
      · simp only [validTok, Bool.and_eq_true]
        exact ⟨hord p (List.mem_cons_self p rest), hvals p v hget⟩
      · exact ih e (fun q hq => hord q (List.mem_cons_of_mem p hq)) hvals tok hmem

lemma aabbToks_valid (m : Element) (hch : meshChildrenOk m.children = true) :
    ∀ tok ∈ aabbToks m, validTok tok = true := by
  intro tok htok
  simp only [aabbToks] at htok
  cases hf : Element.find m strAabb with
  | none => rw [hf] at htok; simp at htok
  | some a =>
    rw [hf] at htok
    have hsp := findFirst_spec m.children strAabb a hf
    have hlf := meshChildren_leaf hch a hsp.1
    simp only [leafConform, attrsConform, Bool.and_eq_true] at hlf
    obtain ⟨⟨_, hvals⟩, _⟩ := hlf
    simp only [subToks] at htok
    rcases List.mem_cons.mp htok with rfl | hmem
    · simp only [validTok, Bool.and_eq_true]
      exact ⟨by rw [hsp.2]; decide, by decide⟩
    · exact propToks_valid aabbPropOrder a (by decide) (attrib_get_valid a hvals)
        tok hmem

lemma materialToks_valid (m : Element) (hch : meshChildrenOk m.children = true) :
    ∀ tok ∈ materialToks m, validTok tok = true := by
  intro tok htok
  simp only [materialToks] at htok
  cases hf : Element.find m strMaterial with
  | none => rw [hf] at htok; simp at htok
  | some a =>
    rw [hf] at htok
    have hsp := findFirst_spec m.children strMaterial a hf
    have hlf := meshChildren_leaf hch a hsp.1
    simp only [leafConform, attrsConform, Bool.and_eq_true] at hlf
    obtain ⟨⟨_, hvals⟩, _⟩ := hlf
    simp only [subToks] at htok
    rcases List.mem_cons.mp htok with rfl | hmem
    · simp only [validTok, Bool.and_eq_true]
      exact ⟨by rw [hsp.2]; decide, by decide⟩
    · exact propToks_valid materialPropOrder a (by decide) (attrib_get_valid a hvals)
        tok hmem

lemma skinToks_valid (m : Element) (hch : meshChildrenOk m.children = true) :
    ∀ tok ∈ skinToks m, validTok tok = true := by
  intro tok htok
  simp only [skinToks] at htok
  cases hf : Element.find m strSkin with
  | none => rw [hf] at htok; simp at htok
  | some a =>
    rw [hf] at htok
    have hsp := findFirst_spec m.children strSkin a hf
    have hlf := meshChildren_leaf hch a hsp.1
    simp only [leafConform, attrsConform, Bool.and_eq_true] at hlf
    obtain ⟨⟨_, hvals⟩, _⟩ := hlf
    simp only [subToks] at htok
    rcases List.mem_cons.mp htok with rfl | hmem
    · simp only [validTok, Bool.and_eq_true]
      exact ⟨by rw [hsp.2]; decide, by decide⟩
    · exact propToks_valid skinPropOrder a (by decide) (attrib_get_valid a hvals)
        tok hmem

lemma bonesToks_valid : ∀ (bs : List Element), (∀ b ∈ bs, boneConform b = true) →
    ∀ tok ∈ bonesToks bs, validTok tok = true := by
  intro bs
  induction bs with
  | nil => intro _ tok htok; simp [bonesToks] at htok
  | cons b rest ih =>
    intro h tok htok
    simp only [bonesToks] at htok
    rcases List.mem_append.mp htok with hm | hm
    · have hb := h b (List.mem_cons_self b rest)
      simp only [boneConform, leafConform, attrsConform, Bool.and_eq_true] at hb
      obtain ⟨htag, ⟨_, hvals⟩, _⟩ := hb
      simp only [subToks] at hm
      rcases List.mem_cons.mp hm with rfl | hmem
      · simp only [validTok, Bool.and_eq_true]
        exact ⟨htag, by decide⟩
      · exact propToks_valid bonePropOrder b (by decide) (attrib_get_valid b hvals)
          tok hmem
    · exact ih (fun x hx => h x (List.mem_cons_of_mem b hx)) tok hm

lemma shapeChildToks_valid (c : Element) (h : shapeChildConform c = true) :
    ∀ tok ∈ shapeChildToks c, validTok tok = true := by
  intro tok htok
  simp only [shapeChildConform, Bool.or_eq_true, Bool.and_eq_true,
    decide_eq_true_eq] at h
  simp only [shapeChildToks] at htok
  rcases h with ⟨htag, hm⟩ | ⟨htag, hk⟩
  · rw [if_pos htag] at htok
    simp only [meshConform, attrsConform, Bool.and_eq_true] at hm
    obtain ⟨⟨_, hvals⟩, hch⟩ := hm
    rcases List.mem_cons.mp htok with rfl | hmem
    · simp only [validTok, Bool.and_eq_true]
      exact ⟨by rw [htag]; decide, by decide⟩
    · rcases List.mem_append.mp hmem with hmm | hsk
      · rcases List.mem_append.mp hmm with hmmm | hmt
        · rcases List.mem_append.mp hmmm with hp | hab
          · exact propToks_valid meshPropOrder c (by decide)
              (attrib_get_valid c hvals) tok hp
          · exact aabbToks_valid c hch tok hab
        · exact materialToks_valid c hch tok hmt
      · exact skinToks_valid c hch tok hsk
  · simp only [skeletonConform, Bool.and_eq_true] at hk
    obtain ⟨_, hbones⟩ := hk
    rw [if_neg (by rw [htag]; decide), if_pos htag] at htok
    rcases List.mem_cons.mp htok with rfl | hmem
    · simp only [validTok, Bool.and_eq_true]
      exact ⟨by rw [htag]; decide, by decide⟩
    · exact bonesToks_valid c.children
        (fun b hb => List.all_eq_true.mp hbones b hb) tok hmem

lemma shapeChildrenToks_valid : ∀ (cs : List Element),
    (∀ c ∈ cs, shapeChildConform c = true) →
    ∀ tok ∈ shapeChildrenToks cs, validTok tok = true := by
  intro cs
  induction cs with
  | nil => intro _ tok htok; simp [shapeChildrenToks] at htok
  | cons c rest ih =>
    intro h tok htok
    simp only [shapeChildrenToks] at htok
    rcases List.mem_append.mp htok with hm | hm
    · exact shapeChildToks_valid c (h c (List.mem_cons_self c rest)) tok hm
    · exact ih (fun x hx => h x (List.mem_cons_of_mem c hx)) tok hm

lemma shapeToks_valid (s : Element) (h : shapeConform s = true) :
    ∀ tok ∈ shapeToks s, validTok tok = true := by
  intro tok htok
  simp only [shapeConform, attrsConform, Bool.and_eq_true] at h
  obtain ⟨⟨htag, _, hvals⟩, hch⟩ := h
  simp only [shapeToks] at htok
  rcases List.mem_cons.mp htok with rfl | hmem
  · simp only [validTok, Bool.and_eq_true]
    exact ⟨htag, by decide⟩
  · rcases List.mem_append.mp hmem with hp | hc
    · exact propToks_valid shapePropOrder s (by decide) (attrib_get_valid s hvals)
        tok hp
    · exact shapeChildrenToks_valid s.children
        (fun c hc2 => List.all_eq_true.mp hch c hc2) tok hc

lemma shapesToks_valid : ∀ (ss : List Element), (∀ s ∈ ss, shapeConform s = true) →
    ∀ tok ∈ shapesToks ss, validTok tok = true := by
  intro ss
  induction ss with
  | nil => intro _ tok htok; simp [shapesToks] at htok
  | cons s rest ih =>
    intro h tok htok
    simp only [shapesToks] at htok
    rcases List.mem_append.mp htok with hm | hm
    · exact shapeToks_valid s (h s (List.mem_cons_self s rest)) tok hm
    · exact ih (fun x hx => h x (List.mem_cons_of_mem s hx)) tok hm

lemma locnodeToks_valid (n : Element) (h : locnodeConform n = true) :
    ∀ tok ∈ locnodeToks n, validTok tok = true := by
  intro tok htok
  simp only [locnodeConform, leafConform, attrsConform, Bool.and_eq_true] at h
  obtain ⟨htag, ⟨_, hvals⟩, _⟩ := h
  simp only [locnodeToks] at htok
  rcases List.mem_cons.mp htok with rfl | hmem
  · simp only [validTok, Bool.and_eq_true]
    exact ⟨htag, by decide⟩
  · exact propToks_valid locnodePropOrder n (by decide) (attrib_get_valid n hvals)
      tok hmem

lemma locnodesToks_valid : ∀ (ns : List Element),
    (∀ n ∈ ns, locnodeConform n = true) →
    ∀ tok ∈ locnodesToks ns, validTok tok = true := by
  intro ns
  induction ns with
  | nil => intro _ tok htok; simp [locnodesToks] at htok
  | cons n rest ih =>
    intro h tok htok
    simp only [locnodesToks] at htok
    rcases List.mem_append.mp htok with hm | hm
    · exact locnodeToks_valid n (h n (List.mem_cons_self n rest)) tok hm
    · exact ih (fun x hx => h x (List.mem_cons_of_mem n hx)) tok hm

/-- Every token a conforming tree serializes to is valid, so the reader can
replay the whole stream. -/
lemma fileToks_valid (t : Element) (h : Conforms t = true) :
    ∀ tok ∈ fileToks t, validTok tok = true := by
  obtain ⟨tag, al, ch⟩ := t
  simp only [Conforms, Element.tag_mk, Element.attrib_mk, Element.children_mk,
    Bool.and_eq_true, decide_eq_true_eq] at h
  obtain ⟨⟨htag, hal⟩, hch⟩ := h
  subst htag
  revert hal
  cases al with
  | nil => intro hal; simp at hal
  | cons kv rest =>
    cases rest with
    | cons kv2 rest2 => intro hal; simp at hal
    | nil =>
      cases kv with
      | mk k v =>
        intro hal
        simp only [Bool.and_eq_true, decide_eq_true_eq] at hal
        obtain ⟨hk, hv⟩ := hal
        subst hk
        have hget : Element.get (Element.mk strFile [(strPdxasset, v)] ch) strPdxasset
            = some v := rfl
        have hpdxTok : validTok (Tok.prop strPdxasset v) = true := by
          simp only [validTok, Bool.and_eq_true]
          exact ⟨by decide, hv⟩
        intro tok htok
        simp only [fileToks, hget, Element.find, Element.children_mk] at htok
        revert hch htok
        cases ch with
        | nil =>
          intro _ htok
          simp only [findFirst, List.append_nil] at htok
          rcases List.mem_singleton.mp htok with rfl
          exact hpdxTok
        | cons a r1 =>
          cases r1 with
          | nil =>
            intro hch htok
            simp only [Bool.or_eq_true, Bool.and_eq_true, decide_eq_true_eq] at hch
            rcases hch with ⟨hao, hoc⟩ | ⟨hal2, hlc⟩
            · simp only [objectConform, Bool.and_eq_true, List.isEmpty_iff] at hoc
              obtain ⟨_, hshapes⟩ := hoc
              rw [show findFirst [a] strObject = some a from by
                simp only [findFirst]; rw [if_pos hao]] at htok
              rw [show findFirst [a] strLocator = none from by
                simp only [findFirst]; rw [if_neg (by rw [hao]; decide)]] at htok
              simp only [List.append_nil] at htok
              rcases List.mem_append.mp htok with hm | hm
              · rcases List.mem_singleton.mp hm with rfl
                exact hpdxTok
              · rcases List.mem_cons.mp hm with rfl | hmem
                · simp only [validTok, Bool.and_eq_true]
                  exact ⟨by rw [hao]; decide, by decide⟩
                · exact shapesToks_valid a.children
                    (fun s hs => List.all_eq_true.mp hshapes s hs) tok hmem
            · simp only [locatorConform, Bool.and_eq_true, List.isEmpty_iff] at hlc
              obtain ⟨_, hnodes⟩ := hlc
              rw [show findFirst [a] strObject = none from by
                simp only [findFirst]; rw [if_neg (by rw [hal2]; decide)]] at htok
              rw [show findFirst [a] strLocator = some a from by
                simp only [findFirst]; rw [if_pos hal2]] at htok
              simp only [List.append_nil] at htok
              rcases List.mem_append.mp htok with hm | hm
              · rcases List.mem_singleton.mp hm with rfl
                exact hpdxTok
              · rcases List.mem_cons.mp hm with rfl | hmem
                · simp only [validTok, Bool.and_eq_true]
                  exact ⟨by rw [hal2]; decide, by decide⟩
                · exact locnodesToks_valid a.children
                    (fun n hn => List.all_eq_true.mp hnodes n hn) tok hmem
          | cons b r2 =>
            cases r2 with
            | cons c r3 => intro hch htok; simp at hch
            | nil =>
              intro hch htok
              simp only [Bool.and_eq_true, decide_eq_true_eq] at hch
              obtain ⟨⟨⟨hao, hoc⟩, hbl⟩, hlc⟩ := hch
              simp only [objectConform, Bool.and_eq_true, List.isEmpty_iff] at hoc
              obtain ⟨_, hshapes⟩ := hoc
              simp only [locatorConform, Bool.and_eq_true, List.isEmpty_iff] at hlc
              obtain ⟨_, hnodes⟩ := hlc
              rw [show findFirst [a, b] strObject = some a from by
                simp only [findFirst]; rw [if_pos hao]] at htok
              rw [show findFirst [a, b] strLocator = some b from by
                simp only [findFirst]; rw [if_neg (by rw [hao]; decide),
                  if_pos hbl]] at htok
              rcases List.mem_append.mp htok with hm | hm
              · rcases List.mem_append.mp hm with hmm | hmm
                · rcases List.mem_singleton.mp hmm with rfl
                  exact hpdxTok
                · rcases List.mem_cons.mp hmm with rfl | hmem
                  · simp only [validTok, Bool.and_eq_true]
                    exact ⟨by rw [hao]; decide, by decide⟩
                  · exact shapesToks_valid a.children
                      (fun s hs => List.all_eq_true.mp hshapes s hs) tok hmem
              · rcases List.mem_cons.mp hm with rfl | hmem
                · simp only [validTok, Bool.and_eq_true]
                  exact ⟨by rw [hbl]; decide, by decide⟩
                · exact locnodesToks_valid b.children
                    (fun n hn => List.all_eq_true.mp hnodes n hn) tok hmem

/-- The full round trip on any schema-conforming tree: the writer succeeds
with `writeBytes t` and the reader maps those bytes back to `t` exactly. -/
lemma roundtrip (t : Element) (h : Conforms t = true) :
    write_meshfile t = .ok (writeBytes t) ∧
    read_meshfile (writeBytes t) = .ok t := by
  refine ⟨write_meshfile_ser t h, ?_⟩
  rw [writeBytes, read_ser (fileToks t) (fileToks_valid t h), collapse_fileToks t h]

/- == error-path helpers for the reader ==================================== -/

lemma read_short (bs : List Nat) (h : bs.length < 4) :
    read_meshfile bs = .error .structError := by
  simp only [read_meshfile, unpackBytes, adjOff]
  rw [if_neg (by omega : ¬ ((0 : Int) < 0))]
  rw [if_neg (by
    intro hcon
    rcases hcon with ⟨-, hcon2⟩
    push_cast at hcon2
    omega)]
  rfl

lemma read_badmagic (bs : List Nat) (h4 : 4 ≤ bs.length) (hm : bs.take 4 ≠ magicBytes) :
    read_meshfile bs = .error .notImplementedError := by
  have hu : unpackBytes bs 0 4 = .ok (bs.take 4) := by
    simp only [unpackBytes, adjOff]
    rw [if_neg (by omega : ¬ ((0 : Int) < 0))]
    rw [if_pos (⟨le_refl 0, by push_cast; omega⟩)]
    simp
  simp only [read_meshfile, hu, exceptBind_ok]
  rw [if_neg hm]

/-- A stray byte where a token should start: ASCII bytes other than `[` and
`!` hit the loop's `else` arm, non-ASCII bytes fail UTF-8 decoding first. -/
lemma read_to_stray (ts : List Tok) (h : ∀ t ∈ ts, validTok t = true)
    (c : Nat) (rest : List Nat) (h91 : c ≠ 91) (h33 : c ≠ 33) :
    read_meshfile (magicBytes ++ (serToksBytes ts ++ c :: rest))
      = .error (if c < 128 then .notImplementedError else .unicodeError) := by
  have hts : 2 * ts.length ≤ (serToksBytes ts).length := two_mul_le_serToksBytes ts h
  simp only [read_meshfile]
  rw [unpackBytes_at' [] magicBytes (serToksBytes ts ++ c :: rest) (by simp) (by simp)
    (by norm_num [magicBytes])]
  simp only [exceptBind_ok]
  rw [if_pos (by norm_num [magicBytes])]
  have hrun := readLoop_run ts magicBytes (c :: rest)
    ((magicBytes ++ (serToksBytes ts ++ c :: rest)).length + 1) 0 [fileRoot] h
    (by simp [magicBytes]; omega)
  have hpos0 : ((magicBytes.length : Nat) : Int) = (4 : Int) := by norm_num [magicBytes]
  rw [hpos0] at hrun
  rw [show Element.mk strFile [] [] = fileRoot from rfl]
  rw [hrun]
  have hfuel : (magicBytes ++ (serToksBytes ts ++ c :: rest)).length + 1 - ts.length
      = ((magicBytes ++ (serToksBytes ts ++ c :: rest)).length - ts.length) + 1 := by
    simp only [List.length_append, List.length_cons]
    omega
  rw [hfuel]
  simp only [readLoop]
  rw [if_pos (by
    simp only [List.length_append, List.length_cons]
    push_cast
    omega)]
  rw [unpackByte_at' (magicBytes ++ serToksBytes ts) c rest
    ((List.append_assoc magicBytes (serToksBytes ts) (c :: rest)).symm) rfl]
  simp only [exceptBind_ok, decodeOneUtf8]
  by_cases hc : c < 128
  · rw [if_pos hc, if_pos hc]
    simp only [exceptBind_ok]
    rw [if_neg h91, if_neg h33]
  · rw [if_neg hc, if_neg hc]
    rfl

/-- An ASCII type byte outside `i`/`f`/`s`, read together with its 4-byte
count, hits `parseData`'s final `else`. -/
lemma parseData_badtype (pre : List Nat) (tv cnt : Nat) (post : List Nat) (pos : Int)
    (hpos : pos = (pre.length : Int)) (ht : tv < 128) (hi : tv ≠ 105) (hf : tv ≠ 102)
    (hs : tv ≠ 115) :
    parseData (pre ++ tv :: (le4 cnt ++ post)) pos = .error .notImplementedError := by
  subst hpos
  simp only [parseData]
  rw [unpackByte_at' pre tv (le4 cnt ++ post) rfl rfl]
  simp only [exceptBind_ok, decodeOneUtf8]
  rw [if_pos ht]
  simp only [exceptBind_ok]
  rw [readI32_at' (pre ++ [tv]) cnt post (by simp) (by simp)]
  simp only [exceptBind_ok]
  rw [if_neg hi, if_neg hf, if_neg hs]

/- == attribute order and lookup invariance ================================ -/

lemma lookupA_eq_of_mem : ∀ (al : List (List Nat × List PyVal)) (k : List Nat)
    (v : List PyVal), (al.map Prod.fst).Nodup → (k, v) ∈ al →
    lookupA al k = some v := by
  intro al
  induction al with
  | nil => intro k v _ hm; simp at hm
  | cons kv rest ih =>
    intro k v hnd hm
    cases kv with
    | mk k' v' =>
      simp only [List.map_cons, List.nodup_cons] at hnd
      obtain ⟨hk', hndr⟩ := hnd
      simp only [lookupA]
      rcases List.mem_cons.mp hm with heq | hmr
      · injection heq with heq1 heq2
        subst heq1
        subst heq2
        rw [if_pos rfl]
      · have hkr : k ∈ rest.map Prod.fst := List.mem_map.mpr ⟨(k, v), hmr, rfl⟩
        rw [if_neg (fun he => hk' (by rw [he]; exact hkr))]
        exact ih k v hndr hmr

/-- With duplicate-free keys, attribute lookup is invariant under permuting
the stored pair list. -/
lemma lookupA_perm (al al' : List (List Nat × List PyVal))
    (h : al.Perm al') (hnd : (al.map Prod.fst).Nodup) (k : List Nat) :
    lookupA al k = lookupA al' k := by
  have hnd' : (al'.map Prod.fst).Nodup := ((h.map Prod.fst).nodup_iff).mp hnd
  cases hl : lookupA al k with
  | some v =>
    exact (lookupA_eq_of_mem al' k v hnd' (h.mem_iff.mp (lookupA_mem al k v hl))).symm
  | none =>
    cases hl' : lookupA al' k with
    | none => rfl
    | some v =>
      have hcontra := lookupA_eq_of_mem al k v hnd
        (h.mem_iff.mpr (lookupA_mem al' k v hl'))
      rw [hl] at hcontra
      cases hcontra

/-- The writer's attribute loop depends only on what `get` returns. -/
lemma writeProps_congr : ∀ (ord : List (List Nat)) (e e' : Element),
    (∀ p, Element.get e p = Element.get e' p) →
    writeProps ord e = writeProps ord e' := by
  intro ord
  induction ord with
  | nil => intro e e' _; rfl
  | cons p rest ih =>
    intro e e' hg
    simp only [writeProps, hg p, ih e e' hg]

/-- The names of the emitted property tokens follow the registry order: they
form a sublist of it (absent attributes are skipped, never reordered). -/
lemma propToks_names_sublist : ∀ (ord : List (List Nat)) (e : Element),
    List.Sublist ((propToks ord e).map (fun t => match t with
      | Tok.obj n _ => n | Tok.prop n _ => n)) ord := by
  intro ord
  induction ord with
  | nil => intro e; simp [propToks]
  | cons p rest ih =>
    intro e
    simp only [propToks]
    cases Element.get e p with
    | none => exact (ih e).cons p
    | some v =>
      simp only [List.map_cons]
      exact (ih e).cons₂ p

/- == mixed-type arrays ==================================================== -/

lemma two_le_length_of_mem_ne {xs : List Nat} {a b : Nat} (ha : a ∈ xs) (hb : b ∈ xs)
    (hne : a ≠ b) : 2 ≤ xs.length := by
  cases xs with
  | nil => simp at ha
  | cons x rest =>
    cases rest with
    | nil =>
      simp only [List.mem_singleton] at ha hb
      exact absurd (ha.trans hb.symm) hne
    | cons y r2 =>
      simp only [List.length_cons]
      omega

/-- An array holding both an int and a float has at least two Python types,
so `writeData`'s homogeneity check raises. -/
lemma writeData_mixed (l : List PyVal) (v1 v2 : PyVal) (hv1 : v1 ∈ l) (hv2 : v2 ∈ l)
    (h1 : isIntV v1 = true) (h2 : isFloatV v2 = true) :
    writeData l = .error .notImplementedError := by
  have h0 : (0 : Nat) ∈ (l.map pyTypeTag).dedup := by
    rw [List.mem_dedup]
    refine List.mem_map.mpr ⟨v1, hv1, ?_⟩
    cases v1 with
    | int n => rfl
    | float b => simp [isIntV] at h1
    | str s => simp [isIntV] at h1
  have h1' : (1 : Nat) ∈ (l.map pyTypeTag).dedup := by
    rw [List.mem_dedup]
    refine List.mem_map.mpr ⟨v2, hv2, ?_⟩
    cases v2 with
    | float b => rfl
    | int n => simp [isFloatV] at h2
    | str s => simp [isFloatV] at h2
  have hlen : 2 ≤ (l.map pyTypeTag).dedup.length :=
    two_le_length_of_mem_ne h0 h1' (by decide)
  simp only [writeData]
  rw [if_neg (by omega), if_neg (by omega)]

/- == the PDXData wrapper assigns depths parent + 1 ======================== -/

mutual

lemma depthInv_build : ∀ (e : Element) (d : Nat), depthInv (buildPDX e (some d)) = true
  | .mk t a ch, d => by
    simp only [buildPDX, depthInv, Option.getD_some]
    exact depthInvList_build ch d

lemma depthInvList_build : ∀ (ch : List Element) (d : Nat),
    depthInvList d (buildPDXList ch (d + 1)) = true
  | [], _ => rfl
  | c :: rest, d => by
    simp only [buildPDXList, depthInvList, Bool.and_eq_true]
    refine ⟨⟨?_, depthInv_build c (d + 1)⟩, depthInvList_build rest d⟩
    cases c with
    | mk t a ch2 =>
      simp only [buildPDX, PDXDataT.depth, Option.getD_some]
      simp

end

/- ========================================================================
   Claim theorems.
   ======================================================================== -/

/-- C1.  For every byte buffer produced by this codec's own writer from a
schema-conforming mesh tree, decoding it with `read_meshfile` and re-encoding
the resulting tree with `write_meshfile` reproduces the original byte
sequence exactly. -/
theorem c1_encode_decode_encode (t : Element) (b : List Nat)
    (h : Conforms t = true) (hw : write_meshfile t = .ok b) :
    ∃ t', read_meshfile b = .ok t' ∧ write_meshfile t' = .ok b := by
  obtain ⟨hw', hr⟩ := roundtrip t h
  rw [hw] at hw'
  injection hw' with hb
  subst hb
  exact ⟨t, hr, hw⟩

/-- Witness for C1 on the concrete conforming document `wTree1`. -/
theorem c1_witness :
    ∃ t', read_meshfile (writeBytes wTree1) = .ok t' ∧
      write_meshfile t' = .ok (writeBytes wTree1) :=
  c1_encode_decode_encode wTree1 (writeBytes wTree1) rfl rfl

/-- C2.  For every tree built to satisfy the mesh document schema, the writer
succeeds and decoding its bytes returns the identical tree: identical tags,
identical attribute values (exact ints, exact float bit patterns, exact
strings) and identical child ordering. -/
theorem c2_roundtrip_identity (t : Element) (h : Conforms t = true) :
    write_meshfile t = .ok (writeBytes t) ∧
    read_meshfile (writeBytes t) = .ok t :=
  roundtrip t h

/-- Witness for C2 on the concrete conforming document `wTree`. -/
theorem c2_witness :
    write_meshfile wTree = .ok (writeBytes wTree) ∧
    read_meshfile (writeBytes wTree) = .ok wTree :=
  c2_roundtrip_identity wTree rfl

/-- C3 (corrected).  The decoder's error classes: (i) a buffer shorter than 4
bytes fails the header `unpack` with a struct error, not the claimed
`FormatError`; (ii) a buffer of 4 or more bytes not starting with `@@b@`
raises the `NotImplementedError` modelling `FormatError`; (iii) after any
valid token prefix, an ASCII byte other than `[` and `!` where a token should
start raises `NotImplementedError`; (iv) but a non-ASCII stray byte raises
`UnicodeDecodeError` instead, contradicting the claim's "exactly when";
(v) an ASCII property data-type byte outside `i`/`f`/`s` (read together with
its 4-byte count) raises `NotImplementedError`; (vi) every buffer consisting
of the magic header and valid tokens decodes to a complete tree. -/
theorem c3_decode_error_classes :
    (∀ bs : List Nat, bs.length < 4 → read_meshfile bs = .error .structError) ∧
    (∀ bs : List Nat, 4 ≤ bs.length → bs.take 4 ≠ magicBytes →
      read_meshfile bs = .error .notImplementedError) ∧
    (∀ (ts : List Tok) (c : Nat) (rest : List Nat),
      (∀ t ∈ ts, validTok t = true) → c < 128 → c ≠ 91 → c ≠ 33 →
      read_meshfile (magicBytes ++ (serToksBytes ts ++ c :: rest))
        = .error .notImplementedError) ∧
    (∀ (ts : List Tok) (c : Nat) (rest : List Nat),
      (∀ t ∈ ts, validTok t = true) → 128 ≤ c →
      read_meshfile (magicBytes ++ (serToksBytes ts ++ c :: rest))
        = .error .unicodeError) ∧
    (∀ (pre : List Nat) (tv cnt : Nat) (post : List Nat) (pos : Int),
      pos = (pre.length : Int) → tv < 128 → tv ≠ 105 → tv ≠ 102 → tv ≠ 115 →
      parseData (pre ++ tv :: (le4 cnt ++ post)) pos
        = .error .notImplementedError) ∧
    (∀ ts : List Tok, (∀ t ∈ ts, validTok t = true) →
      read_meshfile (magicBytes ++ serToksBytes ts)
        = .ok (collapseStack (runToks ts (0, [fileRoot])).2)) := by
  refine ⟨read_short, read_badmagic, ?_, ?_, parseData_badtype, read_ser⟩
  · intro ts c rest h hc h91 h33
    rw [read_to_stray ts h c rest h91 h33, if_pos hc]
  · intro ts c rest h hc
    rw [read_to_stray ts h c rest (by omega) (by omega), if_neg (by omega)]

/-- Witness for C3: each error class exercised on a concrete buffer. -/
theorem c3_witness :
    read_meshfile [64, 64] = .error PyErr.structError ∧
    read_meshfile [65, 64, 98, 64, 33] = .error PyErr.notImplementedError ∧
    read_meshfile (magicBytes ++ (serToksBytes [Tok.obj [97] 1] ++ 37 :: []))
      = .error PyErr.notImplementedError ∧
    read_meshfile (magicBytes ++ (serToksBytes [] ++ 200 :: []))
      = .error PyErr.unicodeError ∧
    parseData ([] ++ 120 :: (le4 3 ++ [])) 0 = .error PyErr.notImplementedError ∧
    read_meshfile (magicBytes ++ serToksBytes [Tok.obj [97] 1])
      = .ok (collapseStack (runToks [Tok.obj [97] 1] (0, [fileRoot])).2) :=
  ⟨c3_decode_error_classes.1 [64, 64] (by decide),
   c3_decode_error_classes.2.1 [65, 64, 98, 64, 33] (by decide) (by decide),
   c3_decode_error_classes.2.2.1 [Tok.obj [97] 1] 37 [] (by decide) (by decide)
     (by decide) (by decide),
   c3_decode_error_classes.2.2.2.1 [] 200 [] (by decide) (by decide),
   c3_decode_error_classes.2.2.2.2.1 [] 120 3 [] 0 rfl (by decide) (by decide)
     (by decide) (by decide),
   c3_decode_error_classes.2.2.2.2.2 [Tok.obj [97] 1] (by decide)⟩

/-- Counterexample for C3: after a valid magic header, a stray `0x80` byte is
a "leading token byte that is neither `[` nor `!`", yet the decoder raises
`UnicodeDecodeError` from `.decode()`, not the `NotImplementedError` that
models the spec's `FormatError`. -/
theorem c3_counterexample :
    read_meshfile [64, 64, 98, 64, 128] = .error PyErr.unicodeError ∧
    PyErr.unicodeError ≠ PyErr.notImplementedError :=
  ⟨rfl, by decide⟩

/-- C4 (corrected).  In the decoded `Element` tree a node's nesting level
need not equal the number of `[` markers of its token (see the
counterexample); the parent-plus-one depth law holds of the `PDXData`
wrapper, whose constructor assigns `depth = parent.depth + 1` afresh and
gives the root depth 0 — it is a derived property, not a byte-level one. -/
theorem c4_depth_is_derived (e : Element) :
    PDXDataT.depth (buildPDX e none) = 0 ∧ depthInv (buildPDX e none) = true := by
  constructor
  · cases e with
    | mk t a ch => rfl
  · cases e with
    | mk t a ch =>
      simp only [buildPDX, depthInv, Option.getD_none]
      exact depthInvList_build ch 0

/-- Counterexample for C4: the buffer's only object token carries two `[`
markers, yet decoding accepts it and places the node at nesting level 1
(a direct child of the root), not level 2. -/
theorem c4_counterexample :
    read_meshfile [64, 64, 98, 64, 91, 91, 97, 0]
      = .ok (Element.mk strFile [] [Element.mk [97] [] []]) := rfl

/-- C5.  Decoding object tokens with the depth sequence `[1, 2, 2, 1, 2]`
(`a`,`b`,`c`,`d`,`e`) yields: `b` and `c` siblings under `a`, and `d` a new
depth-1 subtree holding `e` — the ancestor stack is truncated to `depth`
entries at each non-strictly-increasing depth. -/
theorem c5_depth_sequence :
    read_meshfile (magicBytes ++
      [91, 97, 0, 91, 91, 98, 0, 91, 91, 99, 0, 91, 100, 0, 91, 91, 101, 0])
      = .ok (Element.mk strFile []
          [Element.mk [97] [] [Element.mk [98] [] [], Element.mk [99] [] []],
           Element.mk [100] [] [Element.mk [101] [] []]]) := rfl

/-- C6.  A property token appended to any valid token stream is assigned on
the top of the parse stack — the object created by the most recent object
token (`setTop`), regardless of deeper objects opened and closed earlier; for
an empty stream the stack top is the document root. -/
theorem c6_property_attaches_to_current_parent (ts : List Tok) (nm : List Nat)
    (vs : List PyVal) (hts : ∀ t ∈ ts, validTok t = true)
    (hnm : validPropName nm = true) (hvs : validArr vs = true) :
    read_meshfile (magicBytes ++ serToksBytes (ts ++ [Tok.prop nm vs]))
      = .ok (collapseStack (setTop (runToks ts (0, [fileRoot])).2 nm vs)) := by
  rw [read_ser (ts ++ [Tok.prop nm vs]) (by
    intro t ht
    rcases List.mem_append.mp ht with hm | hm
    · exact hts t hm
    · rcases List.mem_singleton.mp hm with rfl
      simp only [validTok, Bool.and_eq_true]
      exact ⟨hnm, hvs⟩)]
  rw [runToks_append]
  rcases hr : runToks ts (0, [fileRoot]) with ⟨cd, st⟩
  rfl

/-- Witness for C6: the property follows objects `a` (depth 1), `b` (depth
2), `c` (depth 1) and attaches to `c`, the most recent object token. -/
theorem c6_witness :
    read_meshfile (magicBytes ++ serToksBytes
        ([Tok.obj [97] 1, Tok.obj [98] 2, Tok.obj [99] 1]
          ++ [Tok.prop [112] [PyVal.int 5]]))
      = .ok (collapseStack (setTop
          (runToks [Tok.obj [97] 1, Tok.obj [98] 2, Tok.obj [99] 1]
            (0, [fileRoot])).2
          [112] [PyVal.int 5])) :=
  c6_property_attaches_to_current_parent _ _ _ (by decide) (by decide) (by decide)

/-- C7.  Encoding a mesh node's attributes: the output is the serialization
of `propToks meshPropOrder`, whose emitted names are a sublist of the fixed
order `p, n, ta, u0, u1, u2, u3, tri, boundingsphere` (present attributes in
that relative order, absent ones skipped), and the output is unchanged under
any permutation of the in-memory attribute list. -/
theorem c7_mesh_attribute_order (m m' : Element) (hperm : m.attrib.Perm m'.attrib)
    (hnd : (m.attrib.map Prod.fst).Nodup)
    (hvals : m.attrib.all (fun kv => validArr kv.2) = true) :
    writeProps meshPropOrder m' = .ok (serToksBytes (propToks meshPropOrder m)) ∧
    List.Sublist ((propToks meshPropOrder m).map (fun t => match t with
      | Tok.obj n _ => n | Tok.prop n _ => n)) meshPropOrder := by
  constructor
  · rw [writeProps_congr meshPropOrder m' m
      (fun p => (lookupA_perm m.attrib m'.attrib hperm hnd p).symm)]
    exact writeProps_ser meshPropOrder m (by decide) (attrib_get_valid m hvals)
  · exact propToks_names_sublist meshPropOrder m

/-- Witness for C7: the same two mesh attributes stored in the two possible
orders; both encode as `p` before `tri`, the registry order. -/
theorem c7_witness :
    writeProps meshPropOrder
        (Element.mk strMesh [(strTri, [PyVal.int 0]), (strP, [PyVal.float 0])] [])
      = .ok (serToksBytes (propToks meshPropOrder
          (Element.mk strMesh [(strP, [PyVal.float 0]), (strTri, [PyVal.int 0])] []))) ∧
    List.Sublist ((propToks meshPropOrder
        (Element.mk strMesh [(strP, [PyVal.float 0]), (strTri, [PyVal.int 0])] [])).map
      (fun t => match t with | Tok.obj n _ => n | Tok.prop n _ => n)) meshPropOrder :=
  c7_mesh_attribute_order
    (Element.mk strMesh [(strP, [PyVal.float 0]), (strTri, [PyVal.int 0])] [])
    (Element.mk strMesh [(strTri, [PyVal.int 0]), (strP, [PyVal.float 0])] [])
    (by decide) (by decide) (by decide)

/-- C8 (corrected).  `writeObject` rejects exactly the tags of 64 or more
bytes (raising the `NotImplementedError` that models `SchemaError`) and
accepts every shorter Latin-1 tag; when such an over-long tag sits in a
position the writer visits (here: a shape under the `object` section), the
whole encode aborts with no bytes produced.  But a tree "containing" an
over-long tag need not fail: the counterexample shows the writer silently
skipping an unvisited child. -/
theorem c8_tag_length (e : Element) (d : Nat) (v : List PyVal) (sh : Element)
    (hv : validArr v = true) (hsh : 64 ≤ sh.tag.length)
    (hlat : ∀ c ∈ e.tag, c < 256) :
    (64 ≤ e.tag.length → writeObject e d = .error .notImplementedError) ∧
    (e.tag.length < 64 → writeObject e d = .ok (serTok (Tok.obj e.tag d))) ∧
    write_meshfile (Element.mk strFile [(strPdxasset, v)]
        [Element.mk strObject [] [sh]]) = .error .notImplementedError := by
  refine ⟨?_, ?_, ?_⟩
  · intro hlong
    simp only [writeObject]
    rw [if_neg (by omega)]
  · intro hshort
    simp only [writeObject]
    rw [if_pos hshort, writeString_of_latin1 e.tag hlat]
    simp only [exceptBind_ok]
    rfl
  · have hwo : writeObject sh 2 = .error .notImplementedError := by
      simp only [writeObject]
      rw [if_neg (by omega)]
    have hws : writeShapes [sh] = .error .notImplementedError := by
      simp only [writeShapes, writeShape, hwo, exceptBind_err, exceptBind_ok]
    have hget : Element.get (Element.mk strFile [(strPdxasset, v)]
        [Element.mk strObject [] [sh]]) strPdxasset = some v := rfl
    have hfind : Element.find (Element.mk strFile [(strPdxasset, v)]
        [Element.mk strObject [] [sh]]) strObject
        = some (Element.mk strObject [] [sh]) := rfl
    simp only [write_meshfile, Element.tag_mk]
    rw [if_pos trivial]
    simp only [hget, hfind, writeProperty_valid strPdxasset v (by decide) hv,
      writeObject_valid (Element.mk strObject [] [sh]) 1 (by simp only [Element.tag_mk]; decide), hws,
      Element.children_mk, exceptBind_ok, exceptBind_err]

/-- Witness for C8 with a 64-byte tag in the rejected position. -/
theorem c8_witness :
    (64 ≤ (Element.mk (List.replicate 64 120) [] []).tag.length →
      writeObject (Element.mk (List.replicate 64 120) [] []) 1
        = .error PyErr.notImplementedError) ∧
    ((Element.mk (List.replicate 64 120) [] []).tag.length < 64 →
      writeObject (Element.mk (List.replicate 64 120) [] []) 1
        = .ok (serTok (Tok.obj (Element.mk (List.replicate 64 120) [] []).tag 1))) ∧
    write_meshfile (Element.mk strFile [(strPdxasset, [PyVal.int 1])]
        [Element.mk strObject [] [Element.mk (List.replicate 64 120) [] []]])
      = .error PyErr.notImplementedError :=
  c8_tag_length (Element.mk (List.replicate 64 120) [] []) 1 [PyVal.int 1]
    (Element.mk (List.replicate 64 120) [] []) (by decide) (by decide) (by decide)

/-- Counterexample for C8: the tree contains an object with a 64-byte tag,
but the writer never visits it (it is neither the `object` nor the `locator`
section), so encoding succeeds — it does not fail with `SchemaError`. -/
theorem c8_counterexample :
    write_meshfile (Element.mk strFile [(strPdxasset, [PyVal.int 1])]
        [Element.mk (List.replicate 64 120) [] []])
      = .ok (magicBytes ++ serTok (Tok.prop strPdxasset [PyVal.int 1])) := rfl

/-- C9.  An attribute array holding both an integer and a float fails the
`set(type(...))` homogeneity check of `writeData` with the
`NotImplementedError` modelling `SchemaError`; the failure propagates through
`writeProperty` and aborts `write_meshfile` itself, which returns an error
and hence produces no output bytes at all (the writer buffers the entire
byte string before any I/O). -/
theorem c9_mixed_types_abort (l : List PyVal) (v1 v2 : PyVal) (nm : List Nat)
    (hv1 : v1 ∈ l) (hv2 : v2 ∈ l) (h1 : isIntV v1 = true) (h2 : isFloatV v2 = true)
    (hnm : nm.length ≤ 127) (hlat : ∀ c ∈ nm, c < 256) :
    writeData l = .error .notImplementedError ∧
    writeProperty nm l = .error .notImplementedError ∧
    write_meshfile (Element.mk strFile [(strPdxasset, l)] [])
      = .error .notImplementedError := by
  have hwd := writeData_mixed l v1 v2 hv1 hv2 h1 h2
  have hwp : ∀ (nm' : List Nat), nm'.length ≤ 127 → (∀ c ∈ nm', c < 256) →
      writeProperty nm' l = .error .notImplementedError := by
    intro nm' hl hc
    simp only [writeProperty]
    rw [if_pos hl, writeString_of_latin1 nm' hc, hwd]
    simp only [exceptBind_ok, exceptBind_err]
  refine ⟨hwd, hwp nm hnm hlat, ?_⟩
  have hget : Element.get (Element.mk strFile [(strPdxasset, l)] []) strPdxasset
      = some l := rfl
  simp only [write_meshfile, Element.tag_mk]
  rw [if_pos trivial]
  simp only [hget, hwp strPdxasset (by decide) (by decide), exceptBind_err]

/-- Witness for C9 on the concrete mixed array `[int 1, float 5]`. -/
theorem c9_witness :
    writeData [PyVal.int 1, PyVal.float 5] = .error PyErr.notImplementedError ∧
    writeProperty strP [PyVal.int 1, PyVal.float 5]
      = .error PyErr.notImplementedError ∧
    write_meshfile (Element.mk strFile
        [(strPdxasset, [PyVal.int 1, PyVal.float 5])] [])
      = .error PyErr.notImplementedError :=
  c9_mixed_types_abort [PyVal.int 1, PyVal.float 5] (PyVal.int 1) (PyVal.float 5)
    strP (by decide) (by decide) (by decide) (by decide) (by decide) (by decide)

/-- C10.  `writeData` returns the empty byte string for an empty array (the
`len(types) < 1` arm) instead of failing, so `writeProperty` on an empty
array emits exactly the `!` byte, the one-byte name length and the name —
no type tag, no count, no payload. -/
theorem c10_empty_property (nm : List Nat) (hnm : nm.length ≤ 127)
    (hlat : ∀ c ∈ nm, c < 256) :
    writeData ([] : List PyVal) = .ok [] ∧
    writeProperty nm [] = .ok (33 :: nm.length :: nm) := by
  refine ⟨rfl, ?_⟩
  simp only [writeProperty]
  rw [if_pos hnm, writeString_of_latin1 nm hlat]
  simp only [exceptBind_ok]
  rw [show writeData ([] : List PyVal) = .ok [] from rfl]
  simp only [exceptBind_ok, List.append_nil]

/-- Witness for C10 on the property name `p`. -/
theorem c10_witness :
    writeData ([] : List PyVal) = .ok [] ∧
    writeProperty strP [] = .ok (33 :: strP.length :: strP) :=
  c10_empty_property strP (by decide) (by decide)

end PdxData
